import Mathlib

/-!
# Wall-region force engine (`src/fix_wall_region.cpp`) and pairwise Beck kernel
(`src/USER-OMP/pair_beck_omp.cpp`) of LIGGGHTS

A shallow embedding of `FixWallRegion` and of the operations its contract is
about.  C++ `double` values are modelled by the elements of an arbitrary
linearly ordered field `K` (exact arithmetic); `exp` and `log` of `<cmath>` are
passed in as a record `Libm K`, so that every definition stays executable over
`ℚ` and can be instantiated at `ℝ` with `Real.exp` and `Real.log`.
`pow(x, n.0)` with an integral exponent is `x ^ n`.  Exact arithmetic cannot
tell two expressions apart that are equal in a field and round differently in
`double`; for the one place where that matters, the offset of `init` against
the energy of `lj93` and `lj126`, the section "Double arithmetic" repeats the
code with every operation rounded to the nearest `double`.

Member variables that the C++ methods mutate (`fwall`, `eng`, `ewall`,
`ewall_all`, `eflag`) are fields of the record `FixWallRegion K`; a method is a
function returning the updated record.  The per-atom arrays of `Atom`
(`x`, `f`, `radius`, `mask`) are functions of the atom index.

Division is the total division of the field (`1 / 0 = 0`), whereas the C++
code produces an infinity for `1.0/0.0`.  No statement below relies on the
value of a quotient whose divisor is zero: the statements about single
contacts assume the distance or the divisor to be positive where it matters,
and the balance of forces and tally holds for any value of `1 / r`.
-/

namespace LAMMPS_NS

/-- The anonymous enumeration `enum{LJ93,LJ126,COLLOID,HARMONIC,EDL}`. -/
inductive Style where
  | LJ93 | LJ126 | COLLOID | HARMONIC | EDL
  deriving DecidableEq, Repr

/-- The two `<cmath>` functions used by the force laws. -/
structure Libm (K : Type) where
  exp : K → K
  log : K → K

/-- One entry of `region->contact[]`: distance to the surface and the
displacement vector. -/
structure Contact (K : Type) where
  r : K
  delx : K
  dely : K
  delz : K

/-- The two queries of `Region` used by the fix: `match(x,y,z)` and
`surface(x,y,z,cutoff)`; the latter is rendered as the list of the `n`
contacts it leaves in `region->contact[0..n-1]`. -/
structure Region (K : Type) where
  match_ : K → K → K → Bool
  surface : K → K → K → K → List (Contact K)

/-- The part of `Atom` that the fix reads and writes. -/
structure Atom (K : Type) where
  x : Nat → Fin 3 → K
  f : Nat → Fin 3 → K
  radius : Nat → K
  mask : Nat → Nat
  nlocal : Nat
  sphere_flag : Bool

/-- Data members of `FixWallRegion` (with `groupbit` of the base class `Fix`). -/
structure FixWallRegion (K : Type) where
  groupbit : Nat
  style : Style
  epsilon : K
  sigma : K
  cutoff : K
  cutoff_inner : K
  coeff1 : K
  coeff2 : K
  coeff3 : K
  coeff4 : K
  offset : K
  eng : K
  fwall : K
  eflag : Nat
  ewall : Fin 4 → K
  ewall_all : Fin 4 → K

variable {K : Type} [LinearOrderedField K]

namespace FixWallRegion

/-- The block "setup coefficients for each style" of `FixWallRegion::init`
(lines 179-205). -/
def init_coeffs (self : FixWallRegion K) : FixWallRegion K :=
  if self.style = Style.LJ93 then
    let coeff1 := 6 / 5 * self.epsilon * self.sigma ^ 9
    let coeff2 := 3 * self.epsilon * self.sigma ^ 3
    let coeff3 := 2 / 15 * self.epsilon * self.sigma ^ 9
    let coeff4 := self.epsilon * self.sigma ^ 3
    let rinv := 1 / self.cutoff
    let r2inv := rinv * rinv
    let r4inv := r2inv * r2inv
    { self with
      coeff1 := coeff1, coeff2 := coeff2, coeff3 := coeff3, coeff4 := coeff4,
      offset := coeff3 * r4inv * r4inv * rinv - coeff4 * r2inv * rinv }
  else if self.style = Style.LJ126 then
    let coeff1 := 48 * self.epsilon * self.sigma ^ 12
    let coeff2 := 24 * self.epsilon * self.sigma ^ 6
    let coeff3 := 4 * self.epsilon * self.sigma ^ 12
    let coeff4 := 4 * self.epsilon * self.sigma ^ 6
    let r2inv := 1 / (self.cutoff * self.cutoff)
    let r6inv := r2inv * r2inv * r2inv
    { self with
      coeff1 := coeff1, coeff2 := coeff2, coeff3 := coeff3, coeff4 := coeff4,
      offset := r6inv * (coeff3 * r6inv - coeff4) }
  else if self.style = Style.COLLOID then
    let coeff1 := -4 / 315 * self.epsilon * self.sigma ^ 6
    let coeff2 := -2 / 3 * self.epsilon
    let coeff3 := self.epsilon * self.sigma ^ 6 / 7560
    let coeff4 := self.epsilon / 6
    let rinv := 1 / self.cutoff
    let r2inv := rinv * rinv
    let r4inv := r2inv * r2inv
    { self with
      coeff1 := coeff1, coeff2 := coeff2, coeff3 := coeff3, coeff4 := coeff4,
      offset := coeff3 * r4inv * r4inv * rinv - coeff4 * r2inv * rinv }
  else self

/-- The loop `for (i < nlocal) if (mask[i] & groupbit) if (radius[i] == 0.0) flag = 1`
of `FixWallRegion::init`. -/
def init_flag (groupbit : Nat) (atom : Atom K) : Nat :=
  (List.range atom.nlocal).foldl
    (fun flag i =>
      if atom.mask i &&& groupbit ≠ 0 then (if atom.radius i = 0 then 1 else flag) else flag)
    0

/-- `FixWallRegion::init`.  `region_found` is `domain->find_region(idregion) != -1`;
`flag_peers` is the sum of `flag` over the other processes, so that
`MPI_Allreduce(&flag,&flagall,1,MPI_INT,MPI_SUM,world)` yields
`flag + flag_peers`.  The rRESPA level bookkeeping at the end of the C++
function does not touch any modelled member and is left out. -/
def init (region_found : Bool) (atom : Atom K) (flag_peers : Nat)
    (self : FixWallRegion K) : Except String (FixWallRegion K) :=
  if !region_found then
    Except.error "Region ID for fix wall/region does not exist"
  else if self.style = Style.COLLOID ∧ !atom.sphere_flag then
    Except.error "Fix wall/region colloid requires atom style sphere"
  else if self.style = Style.COLLOID ∧ init_flag self.groupbit atom + flag_peers ≠ 0 then
    Except.error "Fix wall/region colloid requires extended particles"
  else if self.style = Style.EDL ∧ !atom.sphere_flag then
    Except.error "Fix wall/region edl requires atom style sphere"
  else if self.style = Style.EDL ∧ init_flag self.groupbit atom + flag_peers ≠ 0 then
    Except.error "Fix wall/region edl requires extended particles"
  else
    Except.ok (init_coeffs self)

/-- `FixWallRegion::lj93(double r)`. -/
def lj93 (self : FixWallRegion K) (r : K) : FixWallRegion K :=
  let rinv := 1 / r
  let r2inv := rinv * rinv
  let r4inv := r2inv * r2inv
  let r10inv := r4inv * r4inv * r2inv
  { self with
    fwall := self.coeff1 * r10inv - self.coeff2 * r4inv,
    eng := self.coeff3 * r4inv * r4inv * rinv - self.coeff4 * r2inv * rinv - self.offset }

/-- `FixWallRegion::lj126(double r)`. -/
def lj126 (self : FixWallRegion K) (r : K) : FixWallRegion K :=
  let rinv := 1 / r
  let r2inv := rinv * rinv
  let r6inv := r2inv * r2inv * r2inv
  { self with
    fwall := r6inv * (self.coeff1 * r6inv - self.coeff2) * rinv,
    eng := r6inv * (self.coeff3 * r6inv - self.coeff4) - self.offset }

/-- `FixWallRegion::colloid(double r, double rad)`. -/
def colloid (m : Libm K) (self : FixWallRegion K) (r rad : K) : FixWallRegion K :=
  let new_coeff2 := self.coeff2 * rad * rad * rad
  let diam := 2 * rad
  let rad2 := rad * rad
  let rad4 := rad2 * rad2
  let rad8 := rad4 * rad4
  let delta2 := rad2 - r * r
  let rinv := 1 / delta2
  let r2inv := rinv * rinv
  let r4inv := r2inv * r2inv
  let r8inv := r4inv * r4inv
  let fwall := self.coeff1 * (rad8 * rad + 27 * rad4 * rad2 * rad * r ^ 2
                  + 63 * rad4 * rad * r ^ 4
                  + 21 * rad2 * rad * r ^ 6) * r8inv - new_coeff2 * r2inv
  let r2 := 1 / 2 * diam - r
  let rinv2 := 1 / r2
  let r2inv2 := rinv2 * rinv2
  let r4inv2 := r2inv2 * r2inv2
  let r3 := r + 1 / 2 * diam
  let rinv3 := 1 / r3
  let r2inv3 := rinv3 * rinv3
  let r4inv3 := r2inv3 * r2inv3
  { self with
    fwall := fwall,
    eng := self.coeff3 * ((-(7 / 2) * diam + r) * r4inv2 * r2inv2 * rinv2
                + (7 / 2 * diam + r) * r4inv3 * r2inv3 * rinv3) -
      self.coeff4 * ((-diam * r + r2 * r3 * (m.log (-r2) - m.log r3)) *
            (-rinv2) * rinv3) - self.offset }

/-- `FixWallRegion::harmonic(double r)`. -/
def harmonic (self : FixWallRegion K) (r : K) : FixWallRegion K :=
  let dr := self.cutoff - r
  { self with fwall := 2 * self.epsilon * dr, eng := self.epsilon * dr * dr }

/-- `FixWallRegion::edl(double r, double rad)`. -/
def edl (m : Libm K) (self : FixWallRegion K) (r rad : K) : FixWallRegion K :=
  let kappa := self.sigma
  let a := self.epsilon
  { self with
    fwall := 2 * a * m.exp (-kappa * (r - rad)),
    eng := 2 * a / self.sigma * m.exp (-kappa * (r - rad)) }

/-- The chain `if (style == LJ93) lj93(r); else if (style == LJ126) lj126(r);
else if (style == COLLOID) colloid(r,radius[i]); else if (style == EDL)
edl(r,radius[i]); else harmonic(r);` which `post_force` runs once with
`r = cutoff_inner` (lines 276-280) and once with `r = contact[m].r`
(lines 284-288). -/
def style_law (m : Libm K) (self : FixWallRegion K) (r rad : K) : FixWallRegion K :=
  if self.style = Style.LJ93 then lj93 self r
  else if self.style = Style.LJ126 then lj126 self r
  else if self.style = Style.COLLOID then colloid m self r rad
  else if self.style = Style.EDL then edl m self r rad
  else harmonic self r

end FixWallRegion

/-- The variables a pass of `post_force` mutates: the fix itself, the force
array `atom->f` and the local `onflag`. -/
structure PassState (K : Type) where
  fix : FixWallRegion K
  f : Nat → Fin 3 → K
  onflag : Nat

/-- What `post_force` leaves behind: the fix, the force array, and the
message of `error->one` when the pass ends in the fatal error. -/
structure PassResult (K : Type) where
  fix : FixWallRegion K
  f : Nat → Fin 3 → K
  error : Option String

namespace FixWallRegion

/-- Lines 273-289 of `post_force`: the three-way branch that sets `fwall`
(and, through the force law, `eng`) for a contact at distance `r` of a
particle of radius `rad`. -/
def contact_fwall (m : Libm K) (self : FixWallRegion K) (r rad : K) : FixWallRegion K :=
  if r ≤ rad then
    { self with fwall := 0 }
  else if r ≤ self.cutoff_inner then
    let s := style_law m self self.cutoff_inner rad
    { s with fwall := s.fwall * (r - rad) / (s.cutoff_inner - rad) }
  else
    style_law m self r rad

/-- Body of the loop `for (m = 0; m < n; m++)` of `post_force`
(lines 266-303) for atom `i` with `rad = radius[i]`. -/
def contact_step (m : Libm K) (i : Nat) (rad : K) (st : PassState K) (c : Contact K) :
    PassState K :=
  let s := contact_fwall m st.fix c.r rad
  let rinv := 1 / c.r
  let fx := s.fwall * c.delx * rinv
  let fy := s.fwall * c.dely * rinv
  let fz := s.fwall * c.delz * rinv
  { fix := { s with ewall := ![s.ewall 0 + s.eng, s.ewall 1 - fx, s.ewall 2 - fy, s.ewall 3 - fz] },
    f := Function.update st.f i ![st.f i 0 + fx, st.f i 1 + fy, st.f i 2 + fz],
    onflag := st.onflag }

/-- Body of the loop `for (i = 0; i < nlocal; i++)` of `post_force`
(lines 254-304). -/
def atom_step (m : Libm K) (region : Region K) (atom : Atom K) (st : PassState K) (i : Nat) :
    PassState K :=
  if atom.mask i &&& st.fix.groupbit ≠ 0 then
    if !region.match_ (atom.x i 0) (atom.x i 1) (atom.x i 2) then
      { st with onflag := 1 }
    else
      (region.surface (atom.x i 0) (atom.x i 1) (atom.x i 2) st.fix.cutoff).foldl
        (contact_step m i (atom.radius i)) st
  else st

/-- `FixWallRegion::post_force(int vflag)`; `region` is
`domain->regions[iregion]`. -/
def post_force (m : Libm K) (region : Region K) (atom : Atom K) (self : FixWallRegion K) :
    PassResult K :=
  let self0 := { self with eflag := 0, ewall := ![0, 0, 0, 0] }
  let st := (List.range atom.nlocal).foldl (atom_step m region atom)
    { fix := self0, f := atom.f, onflag := 0 }
  { fix := st.fix, f := st.f,
    error := if st.onflag ≠ 0 then
        some "Particle on or inside surface of region used in fix wall/region"
      else none }

/-- `MPI_Allreduce(ewall,ewall_all,4,MPI_DOUBLE,MPI_SUM,world)` seen from one
process: the component-wise sum of its own array and those of its peers. -/
def MPI_Allreduce_SUM (own : Fin 4 → K) (peers : List (Fin 4 → K)) : Fin 4 → K :=
  fun k => own k + (peers.map (fun e => e k)).sum

/-- `FixWallRegion::compute_scalar()`; `peers` are the `ewall` arrays the other
processes would contribute to a reduction. -/
def compute_scalar (peers : List (Fin 4 → K)) (self : FixWallRegion K) :
    K × FixWallRegion K :=
  let s := if self.eflag = 0 then
      { self with ewall_all := MPI_Allreduce_SUM self.ewall peers, eflag := 1 }
    else self
  (s.ewall_all 0, s)

/-- `FixWallRegion::compute_vector(int n)` for the indices `n = 0,1,2` that
`size_vector = 3` admits. -/
def compute_vector (n : Fin 3) (peers : List (Fin 4 → K)) (self : FixWallRegion K) :
    K × FixWallRegion K :=
  let s := if self.eflag = 0 then
      { self with ewall_all := MPI_Allreduce_SUM self.ewall peers, eflag := 1 }
    else self
  (s.ewall_all n.succ, s)

/-- The chain of `strcmp(arg[4],...)` tests of the constructor (lines 89-94):
the style named by the argument, `none` when the chain ends in the error. -/
def style_of_arg (s : String) : Option Style :=
  if s = "lj93" then some Style.LJ93
  else if s = "lj126" then some Style.LJ126
  else if s = "colloid" then some Style.COLLOID
  else if s = "harmonic" then some Style.HARMONIC
  else if s = "edl" then some Style.EDL
  else none

/-- `FixWallRegion::FixWallRegion(LAMMPS *lmp, int narg, char **arg)` with
`narg = arg.length`.  `find_region` is `domain->find_region` and `numeric`
is `force->numeric`, which either yields the number written in the string or
raises its own error; both belong to other classes and are parameters.
`groupbit` is what the constructor of the base class `Fix` has set, and
`uninit` holds the members the constructor does not assign (`coeff1..4`,
`offset`, `eng`, `fwall`, `ewall_all`). -/
def construct (find_region : String → Int) (numeric : String → Except String K)
    (groupbit : Nat) (uninit : FixWallRegion K) (arg : List String) :
    Except String (FixWallRegion K) :=
  if arg.length ≠ 9 then
    Except.error "Illegal fix wall/region command"
  else if find_region (arg.getD 3 "") = -1 then
    Except.error "Region ID for fix wall/region does not exist"
  else
    match style_of_arg (arg.getD 4 "") with
    | none => Except.error "Illegal fix wall/region command"
    | some style =>
      (numeric (arg.getD 5 "")).bind fun epsilon =>
      (numeric (arg.getD 6 "")).bind fun sigma =>
      (numeric (arg.getD 7 "")).bind fun cutoff =>
      (numeric (arg.getD 8 "")).bind fun cutoff_inner =>
      if cutoff ≤ 0 then
        Except.error "Fix wall/region cutoff <= 0.0"
      else
        Except.ok { uninit with
          groupbit := groupbit, style := style, epsilon := epsilon, sigma := sigma,
          cutoff := cutoff, cutoff_inner := cutoff_inner,
          eflag := 0, ewall := ![0, 0, 0, 0] }

/-- The distance at which lines 273-289 of `post_force` call the force law of
the style for a contact at distance `r` of a particle of radius `rad`: no call
when `r ≤ rad`, a call at `cutoff_inner` when `r ≤ cutoff_inner`, a call at
`r` otherwise. -/
def contact_law_arg (self : FixWallRegion K) (r rad : K) : Option K :=
  if r ≤ rad then none
  else if r ≤ self.cutoff_inner then some self.cutoff_inner
  else some r

end FixWallRegion


/-! ## Pairwise Beck kernel (`src/USER-OMP/pair_beck_omp.cpp`) -/

/-- The per-type coefficient tables of `PairBeck` that `eval` reads. -/
structure PairBeck (K : Type) where
  cutsq : Nat → Nat → K
  aa : Nat → Nat → K
  alpha : Nat → Nat → K
  beta : Nat → Nat → K
  AA : Nat → Nat → K
  BB : Nat → Nat → K

/-- The arrays of `NeighList` that `eval` reads; `firstneigh i jj` is
`firstneigh[i][jj]`. -/
structure NeighList where
  ilist : Nat → Nat
  numneigh : Nat → Nat
  firstneigh : Nat → Nat → Nat

/-- Everything `PairBeckOMP::eval` reads besides the coefficient tables:
`atom->x`, `atom->type`, `atom->nlocal`, `force->special_lj`, the neighbor
list, `exp` and `sqrt` of `<math.h>`, and three items declared in headers
outside this file, taken as they are: the macro `sbmask`, the constant
`NEIGHMASK` and the tally routine `ev_tally_thr` of `ThrOMP`, which acts on
the accumulators `T` of the thread (`this` and `thr` of the C++ call). -/
structure PairEnv (K T : Type) where
  x : Nat → Fin 3 → K
  type : Nat → Nat
  nlocal : Nat
  special_lj : Nat → K
  list : NeighList
  exp : K → K
  sqrt : K → K
  sbmask : Nat → Nat
  NEIGHMASK : Nat
  ev_tally_thr : T → Nat → Nat → Nat → Bool → K → K → K → K → K → K → T

/-- The variables `eval` mutates: the force array `thr->get_f()`, the local
`evdwl`, and the tally accumulators of the thread. -/
structure EvalState (K T : Type) where
  f : Nat → Fin 3 → K
  evdwl : K
  thr : T

namespace PairBeckOMP

variable {T : Type}

/-- `rsq = delx*delx + dely*dely + delz*delz` for the atoms `i` and `j`
(lines 115-118 of `eval`). -/
def rsq (env : PairEnv K T) (i j : Nat) : K :=
  let delx := env.x i 0 - env.x j 0
  let dely := env.x i 1 - env.x j 1
  let delz := env.x i 2 - env.x j 2
  delx * delx + dely * dely + delz * delz

/-- The value of `force_beck` after lines 122-135 of `eval`, for the squared
distance `rsq` and the types `itype`, `jtype`. -/
def force_beck (env : PairEnv K T) (p : PairBeck K) (itype jtype : Nat) (rsq : K) : K :=
  let r := env.sqrt rsq
  let r5 := rsq * rsq * r
  let aaij := p.aa itype jtype
  let alphaij := p.alpha itype jtype
  let betaij := p.beta itype jtype
  let term1 := aaij * aaij + rsq
  let term2 := 1 / term1 ^ 5
  let term3 := 21672 / 1000 + 30 * aaij * aaij + 6 * rsq
  let term4 := alphaij + r5 * betaij
  let term5 := alphaij + 6 * r5 * betaij
  let force_beck := p.AA itype jtype * env.exp (-1 * r * term4) * term5
  force_beck - p.BB itype jtype * r * term2 * term3

/-- The value of `fpair = factor_lj*force_beck*rinv` (line 137) for atom `i`
and the neighbor entry `jtag`, whose high bits select the exclusion factor. -/
def fpair (env : PairEnv K T) (p : PairBeck K) (i jtag : Nat) : K :=
  let factor_lj := env.special_lj (env.sbmask jtag)
  let j := jtag &&& env.NEIGHMASK
  let rsq := rsq env i j
  let r := env.sqrt rsq
  let rinv := 1 / r
  factor_lj * force_beck env p (env.type i) (env.type j) rsq * rinv

/-- The value assigned to `evdwl` inside `if (EFLAG)` (lines 148-153). -/
def evdwl_beck (env : PairEnv K T) (p : PairBeck K) (itype jtype : Nat) (rsq : K) : K :=
  let r := env.sqrt rsq
  let r5 := rsq * rsq * r
  let aaij := p.aa itype jtype
  let alphaij := p.alpha itype jtype
  let betaij := p.beta itype jtype
  let term1 := aaij * aaij + rsq
  let term4 := alphaij + r5 * betaij
  let term6 := 1 / term1 ^ 3
  let term1inv := 1 / term1
  let evdwl := p.AA itype jtype * env.exp (-1 * r * term4)
  evdwl - p.BB itype jtype * term6 * (1 + (2709 / 1000 + 3 * aaij * aaij) * term1inv)

/-- Body of the loop `for (jj = 0; jj < jnum; jj++)` of `eval` (lines 111-157)
for atom `i` and the neighbor entry `jtag = jlist[jj]`. -/
def neigh_step (EVFLAG EFLAG NEWTON_PAIR : Bool) (env : PairEnv K T) (p : PairBeck K)
    (i : Nat) (st : EvalState K T) (jtag : Nat) : EvalState K T :=
  let j := jtag &&& env.NEIGHMASK
  let delx := env.x i 0 - env.x j 0
  let dely := env.x i 1 - env.x j 1
  let delz := env.x i 2 - env.x j 2
  let itype := env.type i
  let jtype := env.type j
  if rsq env i j < p.cutsq itype jtype then
    let fpair := fpair env p i jtag
    let f1 := Function.update st.f i
      ![st.f i 0 + delx * fpair, st.f i 1 + dely * fpair, st.f i 2 + delz * fpair]
    let f2 := if NEWTON_PAIR = true ∨ j < env.nlocal then
        Function.update f1 j
          ![f1 j 0 - delx * fpair, f1 j 1 - dely * fpair, f1 j 2 - delz * fpair]
      else f1
    let evdwl := if EFLAG = true then evdwl_beck env p itype jtype (rsq env i j) else st.evdwl
    let thr := if EVFLAG = true then
        env.ev_tally_thr st.thr i j env.nlocal NEWTON_PAIR evdwl 0 fpair delx dely delz
      else st.thr
    { f := f2, evdwl := evdwl, thr := thr }
  else st

/-- Body of the loop `for (ii = iifrom; ii < iito; ++ii)` of `eval`
(lines 100-161); `fxtmp`, `fytmp`, `fztmp` are set to `0.0` and never changed
before they are added to `f[i]`. -/
def ii_step (EVFLAG EFLAG NEWTON_PAIR : Bool) (env : PairEnv K T) (p : PairBeck K)
    (st : EvalState K T) (ii : Nat) : EvalState K T :=
  let i := env.list.ilist ii
  let jnum := env.list.numneigh i
  let st1 := (List.range jnum).foldl
    (fun s jj => neigh_step EVFLAG EFLAG NEWTON_PAIR env p i s (env.list.firstneigh i jj)) st
  let fxtmp : K := 0
  let fytmp : K := 0
  let fztmp : K := 0
  { st1 with
    f := Function.update st1.f i ![st1.f i 0 + fxtmp, st1.f i 1 + fytmp, st1.f i 2 + fztmp] }

/-- `PairBeckOMP::eval<EVFLAG,EFLAG,NEWTON_PAIR>(iifrom, iito, thr)`; `f` is the
force array of the thread on entry and `thr` its tally accumulators. -/
def eval (EVFLAG EFLAG NEWTON_PAIR : Bool) (iifrom iito : Nat) (env : PairEnv K T)
    (p : PairBeck K) (f : Nat → Fin 3 → K) (thr : T) : EvalState K T :=
  (List.range' iifrom (iito - iifrom)).foldl (ii_step EVFLAG EFLAG NEWTON_PAIR env p)
    { f := f, evdwl := 0, thr := thr }

end PairBeckOMP

/-! ## STL mesh reader (`src/input_mesh_tri.cpp`) -/

/-- The local variables of `InputMeshTri::meshtrifile_stl`, the calls of
`mesh->addTriangle` made so far (the three points of each call, in order), and
the message of `error->all` once it has been raised.  The rows of `vertices`
are indexed by `Nat`: the C++ array `double vertices[3][3]` has the rows
`0, 1, 2`, a store to any other row lands outside the array. -/
structure StlState (R : Type) where
  iVertex : Nat
  vertices : Nat → Fin 3 → R
  insideSolidObject : Bool
  insideFacet : Bool
  insideOuterLoop : Bool
  triangles : List ((Fin 3 → R) × (Fin 3 → R) × (Fin 3 → R))
  error : Option String

namespace InputMeshTri

variable {R : Type}

/-- The effect of `error->all(FLERR,msg)`: the run ends with the message. -/
def fail (st : StlState R) (msg : String) : StlState R :=
  { st with error := some msg }

/-- One pass through the body of `while (1)` of `meshtrifile_stl` (lines
256-381) for a line that `parse_nonlammps` has split into the words `arg`
(`narg = arg.length`); reading the line, its broadcast and the test of its
length precede the split and are not part of the model.  `atof` is the
function of `<stdlib.h>`.  A word `arg[k]` with `k ≥ narg`, which the code
reads without a test of `narg`, is taken to be the empty string.  Once
`error->all` has been raised the run is over, and the remaining lines leave
the state as it is. -/
def stl_line (atof : String → R) (st : StlState R) (arg : List String) : StlState R :=
  if st.error ≠ none then st
  else if arg.length = 0 then st
  else if arg.getD 0 "" = "solid" then
    if st.insideSolidObject then
      fail st "Corrupt or unknown STL file: New solid object begins without closing prior solid object."
    else { st with insideSolidObject := true }
  else if arg.getD 0 "" = "endsolid" then
    if !st.insideSolidObject then
      fail st "Corrupt or unknown STL file: End of solid object found, but no begin."
    else { st with insideSolidObject := false }
  else if arg.getD 0 "" = "facet" then
    if st.insideFacet then
      fail st "Corrupt or unknown STL file: New facet begins without closing prior facet."
    else if !st.insideSolidObject then
      fail st "Corrupt or unknown STL file: New facet begins outside solid object."
    else if arg.getD 1 "" ≠ "normal" then
      fail { st with insideFacet := true }
        "Corrupt or unknown STL file: Facet normal not defined."
    else { st with insideFacet := true }
  else if arg.getD 0 "" = "endfacet" then
    if !st.insideFacet then
      fail st "Corrupt or unknown STL file: End of facet found, but no begin."
    else if st.iVertex ≠ 3 then
      fail { st with insideFacet := false }
        "Corrupt or unknown STL file: Number of vertices not equal to three (no triangle)."
    else
      { st with
        insideFacet := false,
        triangles := st.triangles ++ [(st.vertices 0, st.vertices 1, st.vertices 2)] }
  else if arg.getD 0 "" = "outer" then
    if st.insideOuterLoop then
      fail st "Corrupt or unknown STL file: New outer loop begins without closing prior outer loop."
    else if !st.insideFacet then
      fail st "Corrupt or unknown STL file: New outer loop begins outside facet."
    else { st with insideOuterLoop := true, iVertex := 0 }
  else if arg.getD 0 "" = "endloop" then
    if !st.insideOuterLoop then
      fail st "Corrupt or unknown STL file: End of outer loop found, but no begin."
    else { st with insideOuterLoop := false }
  else if arg.getD 0 "" = "vertex" then
    if !st.insideOuterLoop then
      fail st "Corrupt or unknown STL file: Vertex found outside a loop."
    else
      let vertices := Function.update st.vertices st.iVertex
        ![atof (arg.getD 1 ""), atof (arg.getD 2 ""), atof (arg.getD 3 "")]
      let iVertex := st.iVertex + 1
      if iVertex > 3 then
        fail { st with vertices := vertices, iVertex := iVertex }
          "Corrupt or unknown STL file: Can not have more than 3 vertices in a facet (only triangular meshes supported)."
      else { st with vertices := vertices, iVertex := iVertex }
  else st

/-- The state in which `meshtrifile_stl` enters its loop; `vertices` is not
initialised by the code and holds `uninit`. -/
def stl_start (uninit : Nat → Fin 3 → R) : StlState R where
  iVertex := 0
  vertices := uninit
  insideSolidObject := false
  insideFacet := false
  insideOuterLoop := false
  triangles := []
  error := none

/-- `InputMeshTri::meshtrifile_stl(class TriMesh *mesh)` on the lines `lines`
of the file, each split into words; the end of the list is the end of the
file, where the loop is left by `break`. -/
def meshtrifile_stl (atof : String → R) (uninit : Nat → Fin 3 → R)
    (lines : List (List String)) : StlState R :=
  lines.foldl (stl_line atof) (stl_start uninit)

/-- A facet of an ASCII STL file as the format describes it: the words after
`facet normal`, the words after `outer`, and the three words of each of its
three `vertex` lines. -/
structure StlFacet where
  normal : List String
  loop : List String
  v0 : String × String × String
  v1 : String × String × String
  v2 : String × String × String

/-- The seven lines of a well formed facet. -/
def facet_lines (fc : StlFacet) : List (List String) :=
  [ "facet" :: "normal" :: fc.normal,
    "outer" :: fc.loop,
    ["vertex", fc.v0.1, fc.v0.2.1, fc.v0.2.2],
    ["vertex", fc.v1.1, fc.v1.2.1, fc.v1.2.2],
    ["vertex", fc.v2.1, fc.v2.2.1, fc.v2.2.2],
    ["endloop"],
    ["endfacet"] ]

/-- A well formed ASCII STL input: `solid <name>`, the facets, `endsolid <name>`. -/
def well_formed_input (name : List String) (facets : List StlFacet) : List (List String) :=
  ("solid" :: name) :: (facets.flatMap facet_lines ++ [("endsolid" :: name)])

/-- The point that a `vertex` line with the words `v` stands for. -/
def point (atof : String → R) (v : String × String × String) : Fin 3 → R :=
  ![atof v.1, atof v.2.1, atof v.2.2]

/-- Whether, after the lines `lines`, a block begun by a line whose first word
is `opener` has not been ended by a line whose first word is `closer`. -/
def open_after (opener closer : String) (lines : List (List String)) : Bool :=
  lines.foldl
    (fun b l => if l.head? = some opener then true
      else if l.head? = some closer then false else b)
    false

end InputMeshTri

/-! ## Double arithmetic of the offset and of the LJ laws

The definitions above compute in an exact field.  Where a statement is about
a result being exactly equal in `double` arithmetic, the operations have to be
rounded one by one; the definitions below repeat the LJ93, LJ126 and COLLOID
branches of `init` and the functions `lj93` and `lj126` with a rounding `fl`
applied to the result of every arithmetic operation, in the order in which
C++ evaluates the expressions (left to right, no fused operations).  With
`fl = id` they are the exact definitions. -/

/-- The quotient `n / d` of two natural numbers rounded to the nearest
integer, a tie going to the even one. -/
def round_half_even (n d : Nat) : Nat :=
  let q := n / d
  let r := n % d
  if 2 * r < d then q else if d < 2 * r then q + 1 else if q % 2 = 0 then q else q + 1

/-- The integer part of the binary logarithm of `n ≥ 1`, by at most `fuel`
halvings. -/
def floor_log2 : Nat → Nat → Nat
  | 0, _ => 0
  | fuel + 1, n => if n < 2 then 0 else floor_log2 fuel (n / 2) + 1

/-- The exponent `e` with `2^e ≤ n/d < 2^(e+1)`, for `n > 0` and `d > 0` whose
quotient lies between `2^(-2100)` and `2^2100`, which covers the range of
`double`. -/
def binade (n d : Nat) : Int :=
  if d ≤ n then (floor_log2 2100 (n / d) : Int)
  else
    let k := floor_log2 2100 (d / n)
    if d ≤ n * 2 ^ k then -(k : Int) else -(k : Int) - 1

/-- The `double` nearest to the rational number `q` (IEEE 754 binary64:
53 significant bits, round to nearest, ties to even), for results in the
normal range; overflow and subnormal numbers are not modelled. -/
def round_double (q : ℚ) : ℚ :=
  if q = 0 then 0
  else
    let n := q.num.natAbs
    let d := q.den
    let e := binade n d
    let m : ℚ :=
      if e ≤ 52 then (round_half_even (n * 2 ^ (52 - e).toNat) d : ℚ) / 2 ^ (52 - e).toNat
      else (round_half_even n (d * 2 ^ (e - 52).toNat) : ℚ) * 2 ^ (e - 52).toNat
    if q < 0 then -m else m

namespace FixWallRegion

/-- The block "setup coefficients for each style" of `FixWallRegion::init`
(lines 179-205) in rounded arithmetic: `fl` rounds the result of each
operation, `pow x n` is `pow(x, n.0)` of `<cmath>`.  A quotient of two
literals such as `6.0/5.0` is one rounded constant. -/
def init_coeffs_fl (fl : K → K) (pow : K → Nat → K) (self : FixWallRegion K) :
    FixWallRegion K :=
  if self.style = Style.LJ93 then
    let coeff1 := fl (fl (fl (6 / 5) * self.epsilon) * pow self.sigma 9)
    let coeff2 := fl (fl (3 * self.epsilon) * pow self.sigma 3)
    let coeff3 := fl (fl (fl (2 / 15) * self.epsilon) * pow self.sigma 9)
    let coeff4 := fl (self.epsilon * pow self.sigma 3)
    let rinv := fl (1 / self.cutoff)
    let r2inv := fl (rinv * rinv)
    let r4inv := fl (r2inv * r2inv)
    { self with
      coeff1 := coeff1, coeff2 := coeff2, coeff3 := coeff3, coeff4 := coeff4,
      offset := fl (fl (fl (fl (coeff3 * r4inv) * r4inv) * rinv)
        - fl (fl (coeff4 * r2inv) * rinv)) }
  else if self.style = Style.LJ126 then
    let coeff1 := fl (fl (48 * self.epsilon) * pow self.sigma 12)
    let coeff2 := fl (fl (24 * self.epsilon) * pow self.sigma 6)
    let coeff3 := fl (fl (4 * self.epsilon) * pow self.sigma 12)
    let coeff4 := fl (fl (4 * self.epsilon) * pow self.sigma 6)
    let r2inv := fl (1 / fl (self.cutoff * self.cutoff))
    let r6inv := fl (fl (r2inv * r2inv) * r2inv)
    { self with
      coeff1 := coeff1, coeff2 := coeff2, coeff3 := coeff3, coeff4 := coeff4,
      offset := fl (r6inv * fl (fl (coeff3 * r6inv) - coeff4)) }
  else if self.style = Style.COLLOID then
    let coeff1 := fl (fl (fl (-4 / 315) * self.epsilon) * pow self.sigma 6)
    let coeff2 := fl (fl (-2 / 3) * self.epsilon)
    let coeff3 := fl (fl (self.epsilon * pow self.sigma 6) / 7560)
    let coeff4 := fl (self.epsilon / 6)
    let rinv := fl (1 / self.cutoff)
    let r2inv := fl (rinv * rinv)
    let r4inv := fl (r2inv * r2inv)
    { self with
      coeff1 := coeff1, coeff2 := coeff2, coeff3 := coeff3, coeff4 := coeff4,
      offset := fl (fl (fl (fl (coeff3 * r4inv) * r4inv) * rinv)
        - fl (fl (coeff4 * r2inv) * rinv)) }
  else self

/-- `FixWallRegion::lj93(double r)` in rounded arithmetic. -/
def lj93_fl (fl : K → K) (self : FixWallRegion K) (r : K) : FixWallRegion K :=
  let rinv := fl (1 / r)
  let r2inv := fl (rinv * rinv)
  let r4inv := fl (r2inv * r2inv)
  let r10inv := fl (fl (r4inv * r4inv) * r2inv)
  { self with
    fwall := fl (fl (self.coeff1 * r10inv) - fl (self.coeff2 * r4inv)),
    eng := fl (fl (fl (fl (fl (self.coeff3 * r4inv) * r4inv) * rinv)
      - fl (fl (self.coeff4 * r2inv) * rinv)) - self.offset) }

/-- `FixWallRegion::lj126(double r)` in rounded arithmetic. -/
def lj126_fl (fl : K → K) (self : FixWallRegion K) (r : K) : FixWallRegion K :=
  let rinv := fl (1 / r)
  let r2inv := fl (rinv * rinv)
  let r6inv := fl (fl (r2inv * r2inv) * r2inv)
  { self with
    fwall := fl (fl (r6inv * fl (fl (self.coeff1 * r6inv) - self.coeff2)) * rinv),
    eng := fl (fl (r6inv * fl (fl (self.coeff3 * r6inv) - self.coeff4)) - self.offset) }

end FixWallRegion

/-! ## Example data -/

namespace Example

/-- Stand-ins for `exp` and `log` over `ℚ` (first-order Taylor polynomials);
they only serve to run the definitions on concrete rational inputs. -/
def libm : Libm ℚ where
  exp := fun t => 1 + t
  log := fun t => t - 1

/-- A flat wall at `z = 0` bounding the half space `z ≥ 0`: a point is matched
when `z ≥ 0`, and it has one surface contact, at distance `z`, when `z` is
below the cutoff. -/
def halfSpace : Region ℚ where
  match_ := fun _ _ z => decide (0 ≤ z)
  surface := fun _ _ z cutoff => if z < cutoff then [⟨z, 0, 0, z⟩] else []

/-- A wall of the given style with `epsilon = 1`, `sigma = 1`, the given outer
cutoff and `cutoff_inner = 1/2`, acting on group bit 1, as the constructor
leaves it (coefficients not yet set; the members the constructor does not
initialise are taken to be zero). -/
def wall (K : Type) [LinearOrderedField K] (style : Style) (cutoff : K) : FixWallRegion K where
  groupbit := 1
  style := style
  epsilon := 1
  sigma := 1
  cutoff := cutoff
  cutoff_inner := 1 / 2
  coeff1 := 0
  coeff2 := 0
  coeff3 := 0
  coeff4 := 0
  offset := 0
  eng := 0
  fwall := 0
  eflag := 0
  ewall := ![0, 0, 0, 0]
  ewall_all := ![0, 0, 0, 0]

/-- The harmonic wall with `cutoff = 2` over `ℚ`. -/
def harmonicFix : FixWallRegion ℚ := wall ℚ Style.HARMONIC 2

/-- The harmonic wall with `cutoff = 2` over `ℚ` whose member `eng`, which the
constructor leaves uninitialised, holds the value `e`. -/
def harmonicFixEng (e : ℚ) : FixWallRegion ℚ := { wall ℚ Style.HARMONIC 2 with eng := e }

/-- The LJ 9/3 wall with `cutoff = 2` over `ℚ`, before `init`. -/
def lj93Fix : FixWallRegion ℚ := wall ℚ Style.LJ93 2

/-- Atoms whose positions lie on the `z` axis at the heights `zs`, with the
radii `rads` and the group masks `masks`, and zero forces. -/
def atomsOnAxis (zs rads : List ℚ) (masks : List Nat) : Atom ℚ where
  x := fun i => ![0, 0, zs.getD i 0]
  f := fun _ => ![0, 0, 0]
  radius := fun i => rads.getD i 0
  mask := fun i => masks.getD i 0
  nlocal := zs.length
  sphere_flag := true

/-- A stand-in for `force->numeric` over `ℚ` that reads the few literals used
in the examples and raises the error of `force->numeric` on any other string. -/
def numeric (s : String) : Except String ℚ :=
  if s = "-1" then Except.ok (-1)
  else if s = "0" then Except.ok 0
  else if s = "0.5" then Except.ok (1 / 2)
  else if s = "1" then Except.ok 1
  else if s = "2" then Except.ok 2
  else Except.error "Expected floating point parameter in input script or data file"

/-- A stand-in for `domain->find_region` that knows the single region `box`. -/
def find_region (s : String) : Int := if s = "box" then 0 else -1

/-- The argument list of `fix 1 all wall/region box <style> <epsilon> <sigma>
<cutoff> <cutoff_inner>`. -/
def args (style epsilon sigma cutoff cutoff_inner : String) : List String :=
  ["1", "all", "wall/region", "box", style, epsilon, sigma, cutoff, cutoff_inner]

/-- Beck coefficient tables that are the same for every pair of types:
cutoff `3` (`cutsq = 9`), `aa = 1`, `alpha = 1`, `beta = 0`, `AA = 1`, `BB = 1`. -/
def beck : PairBeck ℚ where
  cutsq := fun _ _ => 9
  aa := fun _ _ => 1
  alpha := fun _ _ => 1
  beta := fun _ _ => 0
  AA := fun _ _ => 1
  BB := fun _ _ => 1

/-- Three atoms on the `z` axis at heights `0`, `2` and `5`, of which the first
`nlocal` are owned; atom `0` has the neighbors listed in `neigh`, no other atom
has neighbors.  Bit 30 and 31 of a neighbor entry select the exclusion factor
(`special_lj = 1, 0, 1/2, 1/2`), the low 30 bits are the index.  `sqrt` is
exact on squares of rationals, `exp` is the stand-in of `libm`, and the tally
routine records `(i, j, evdwl)` of each call. -/
def pairEnv (nlocal : Nat) (neigh : List Nat) : PairEnv ℚ (List (Nat × Nat × ℚ)) where
  x := fun i => ![0, 0, [0, 2, 5].getD i 0]
  type := fun _ => 1
  nlocal := nlocal
  special_lj := fun n => [1, 0, 1 / 2, 1 / 2].getD n 0
  list := { ilist := fun _ => 0,
            numneigh := fun i => if i = 0 then neigh.length else 0,
            firstneigh := fun _ jj => neigh.getD jj 0 }
  exp := libm.exp
  sqrt := Rat.sqrt
  sbmask := fun j => (j >>> 30) &&& 3
  NEIGHMASK := 0x3FFFFFFF
  ev_tally_thr := fun t i j _ _ evdwl _ _ _ _ _ => t ++ [(i, j, evdwl)]

/-- A stand-in for `atof` over `ℚ`: the number read by `numeric`, and `0` for
any other string. -/
def atof (s : String) : ℚ :=
  match numeric s with
  | Except.ok q => q
  | Except.error _ => 0

/-- The content of an array entry that has never been written. -/
def uninit : Nat → Fin 3 → ℚ := fun _ _ => -1

/-- A facet with the corners (0,0,0), (1,0,0), (0,1,0). -/
def stl_tri : InputMeshTri.StlFacet where
  normal := ["0", "0", "1"]
  loop := ["loop"]
  v0 := ("0", "0", "0")
  v1 := ("1", "0", "0")
  v2 := ("0", "1", "0")

/-- A file that ends inside an outer loop. -/
def stl_cut_in_loop : List (List String) :=
  [["solid", "part"], ["facet", "normal", "0", "0", "1"], ["outer", "loop"],
   ["vertex", "0", "0", "0"]]

/-- A file whose facet is ended by `endfacet` with no `endloop` before it. -/
def stl_open_loop : List (List String) :=
  [["solid", "part"], ["facet", "normal", "0", "0", "1"], ["outer", "loop"],
   ["vertex", "0", "0", "0"], ["vertex", "1", "0", "0"], ["vertex", "0", "1", "0"],
   ["endfacet"], ["endsolid", "part"]]

/-- A file with one complete facet followed by a facet that has no `vertex`
line at all. -/
def stl_empty_facet : List (List String) :=
  [["solid", "part"], ["facet", "normal", "0", "0", "1"], ["outer", "loop"],
   ["vertex", "0", "0", "0"], ["vertex", "1", "0", "0"], ["vertex", "0", "1", "0"],
   ["endloop"], ["endfacet"],
   ["facet", "normal", "0", "0", "1"], ["endfacet"], ["endsolid", "part"]]

/-- A file whose outer loop has four `vertex` lines, the fourth with the
coordinates (2,2,2). -/
def stl_four_vertices : List (List String) :=
  [["solid", "part"], ["facet", "normal", "0", "0", "1"], ["outer", "loop"],
   ["vertex", "0", "0", "0"], ["vertex", "1", "0", "0"], ["vertex", "0", "1", "0"],
   ["vertex", "2", "2", "2"]]

/-- A `pow` of `<cmath>` that returns the `double` nearest to the exact power. -/
def pow_double (x : ℚ) (n : Nat) : ℚ := round_double (x ^ n)

end Example

/-! ## Auxiliary lemmas -/

namespace FixWallRegion

section Frame

variable (m : Libm K) (self : FixWallRegion K) (r rad : K)

@[simp] theorem style_law_cutoff_inner :
    (style_law m self r rad).cutoff_inner = self.cutoff_inner := by
  unfold style_law lj93 lj126 colloid edl harmonic; split_ifs <;> rfl

@[simp] theorem style_law_cutoff : (style_law m self r rad).cutoff = self.cutoff := by
  unfold style_law lj93 lj126 colloid edl harmonic; split_ifs <;> rfl

@[simp] theorem style_law_groupbit : (style_law m self r rad).groupbit = self.groupbit := by
  unfold style_law lj93 lj126 colloid edl harmonic; split_ifs <;> rfl

@[simp] theorem style_law_ewall : (style_law m self r rad).ewall = self.ewall := by
  unfold style_law lj93 lj126 colloid edl harmonic; split_ifs <;> rfl

@[simp] theorem style_law_eflag : (style_law m self r rad).eflag = self.eflag := by
  unfold style_law lj93 lj126 colloid edl harmonic; split_ifs <;> rfl

@[simp] theorem contact_fwall_cutoff : (contact_fwall m self r rad).cutoff = self.cutoff := by
  unfold contact_fwall; split_ifs <;> simp

@[simp] theorem contact_fwall_groupbit :
    (contact_fwall m self r rad).groupbit = self.groupbit := by
  unfold contact_fwall; split_ifs <;> simp

@[simp] theorem contact_fwall_ewall : (contact_fwall m self r rad).ewall = self.ewall := by
  unfold contact_fwall; split_ifs <;> simp

@[simp] theorem contact_fwall_eflag : (contact_fwall m self r rad).eflag = self.eflag := by
  unfold contact_fwall; split_ifs <;> simp

/-- For the harmonic style the chain of style tests ends in `harmonic`. -/
theorem style_law_of_harmonic (h : self.style = Style.HARMONIC) :
    style_law m self r rad = harmonic self r := by
  simp [style_law, h]

end Frame

section Fold

variable (m : Libm K)

@[simp] theorem contact_step_onflag (i : Nat) (rad : K) (st : PassState K) (c : Contact K) :
    (contact_step m i rad st c).onflag = st.onflag := rfl

@[simp] theorem contact_step_groupbit (i : Nat) (rad : K) (st : PassState K) (c : Contact K) :
    (contact_step m i rad st c).fix.groupbit = st.fix.groupbit := by
  simp [contact_step]

@[simp] theorem contact_step_cutoff (i : Nat) (rad : K) (st : PassState K) (c : Contact K) :
    (contact_step m i rad st c).fix.cutoff = st.fix.cutoff := by
  simp [contact_step]

@[simp] theorem contact_step_eflag (i : Nat) (rad : K) (st : PassState K) (c : Contact K) :
    (contact_step m i rad st c).fix.eflag = st.fix.eflag := by
  simp [contact_step]

theorem contact_step_f_other (i : Nat) (rad : K) (st : PassState K) (c : Contact K)
    {a : Nat} (ha : a ≠ i) : (contact_step m i rad st c).f a = st.f a := by
  simp [contact_step, Function.update_noteq ha]

/-- The contact loop leaves `onflag`, `groupbit`, `cutoff`, `eflag` and the
forces of the other atoms as they are. -/
theorem contact_fold_frame (i : Nat) (rad : K) (l : List (Contact K)) (st : PassState K) :
    (l.foldl (contact_step m i rad) st).onflag = st.onflag ∧
    (l.foldl (contact_step m i rad) st).fix.groupbit = st.fix.groupbit ∧
    (l.foldl (contact_step m i rad) st).fix.cutoff = st.fix.cutoff ∧
    (l.foldl (contact_step m i rad) st).fix.eflag = st.fix.eflag ∧
    ∀ a, a ≠ i → (l.foldl (contact_step m i rad) st).f a = st.f a := by
  induction l generalizing st with
  | nil => simp
  | cons c l ih =>
    obtain ⟨h1, h2, h3, h4, h5⟩ := ih (contact_step m i rad st c)
    refine ⟨?_, ?_, ?_, ?_, ?_⟩
    · simpa using h1
    · simpa using h2
    · simpa using h3
    · simpa using h4
    · intro a ha
      rw [List.foldl_cons, h5 a ha, contact_step_f_other m i rad st c ha]

/-- One iteration of the atom loop leaves `groupbit`, `cutoff`, `eflag` and
the forces of the other atoms as they are. -/
theorem atom_step_frame (region : Region K) (atom : Atom K) (st : PassState K) (i : Nat) :
    (atom_step m region atom st i).fix.groupbit = st.fix.groupbit ∧
    (atom_step m region atom st i).fix.cutoff = st.fix.cutoff ∧
    (atom_step m region atom st i).fix.eflag = st.fix.eflag ∧
    ∀ a, a ≠ i → (atom_step m region atom st i).f a = st.f a := by
  unfold atom_step
  split_ifs with h1 h2
  · simp
  · obtain ⟨-, h2, h3, h4, h5⟩ := contact_fold_frame m i (atom.radius i)
      (region.surface (atom.x i 0) (atom.x i 1) (atom.x i 2) st.fix.cutoff) st
    exact ⟨h2, h3, h4, h5⟩
  · simp

/-- The atom loop leaves `groupbit`, `cutoff` and `eflag` as they are. -/
theorem atom_fold_frame (region : Region K) (atom : Atom K) (l : List Nat)
    (st : PassState K) :
    (l.foldl (atom_step m region atom) st).fix.groupbit = st.fix.groupbit ∧
    (l.foldl (atom_step m region atom) st).fix.cutoff = st.fix.cutoff ∧
    (l.foldl (atom_step m region atom) st).fix.eflag = st.fix.eflag := by
  induction l generalizing st with
  | nil => simp
  | cons i l ih =>
    obtain ⟨h1, h2, h3⟩ := ih (atom_step m region atom st i)
    obtain ⟨g1, g2, g3, -⟩ := atom_step_frame m region atom st i
    refine ⟨?_, ?_, ?_⟩
    · rw [List.foldl_cons, h1, g1]
    · rw [List.foldl_cons, h2, g2]
    · rw [List.foldl_cons, h3, g3]

/-- Summing component `k` of a force array over the first `N` atoms after
atom `i < N` has been overwritten by `v`. -/
theorem sum_update_component (f : Nat → Fin 3 → K) (i N : Nat) (hi : i < N)
    (v : Fin 3 → K) (k : Fin 3) :
    ∑ a in Finset.range N, Function.update f i v a k =
      ∑ a in Finset.range N, f a k + (v k - f i k) := by
  have h : ∀ a, Function.update f i v a k = f a k + (if a = i then v k - f i k else 0) := by
    intro a
    by_cases ha : a = i
    · subst ha; simp
    · simp [ha]
  simp only [h, Finset.sum_add_distrib, Finset.sum_ite_eq', Finset.mem_range, hi, if_true]

/-- The loop body conserves `ewall[k+1] + Σ f[a][k]`. -/
theorem contact_step_balance (i N : Nat) (hi : i < N) (rad : K) (st : PassState K)
    (c : Contact K) (k : Fin 3) :
    (contact_step m i rad st c).fix.ewall k.succ
        + ∑ a in Finset.range N, (contact_step m i rad st c).f a k =
      st.fix.ewall k.succ + ∑ a in Finset.range N, st.f a k := by
  have h23 : (2 : Fin 3).succ = (3 : Fin 4) := rfl
  simp only [contact_step, sum_update_component _ i N hi]
  fin_cases k <;> simp [h23]

/-- The contact loop conserves `ewall[k+1] + Σ f[a][k]`. -/
theorem contact_fold_balance (i N : Nat) (hi : i < N) (rad : K) (l : List (Contact K))
    (st : PassState K) (k : Fin 3) :
    (l.foldl (contact_step m i rad) st).fix.ewall k.succ
        + ∑ a in Finset.range N, (l.foldl (contact_step m i rad) st).f a k =
      st.fix.ewall k.succ + ∑ a in Finset.range N, st.f a k := by
  induction l generalizing st with
  | nil => simp
  | cons c l ih => rw [List.foldl_cons, ih, contact_step_balance m i N hi]

/-- The atom loop conserves `ewall[k+1] + Σ f[a][k]`. -/
theorem atom_fold_balance (region : Region K) (atom : Atom K) (N : Nat) (l : List Nat)
    (hl : ∀ i ∈ l, i < N) (st : PassState K) (k : Fin 3) :
    (l.foldl (atom_step m region atom) st).fix.ewall k.succ
        + ∑ a in Finset.range N, (l.foldl (atom_step m region atom) st).f a k =
      st.fix.ewall k.succ + ∑ a in Finset.range N, st.f a k := by
  induction l generalizing st with
  | nil => simp
  | cons i l ih =>
    rw [List.foldl_cons, ih (fun j hj => hl j (List.mem_cons_of_mem _ hj))]
    have hi : i < N := hl i (List.mem_cons_self _ _)
    unfold atom_step
    split_ifs
    · rfl
    · exact contact_fold_balance m i N hi _ _ _ k
    · rfl

/-- The result of the contact loop, apart from `onflag`, does not depend on
the value of `onflag` it starts with. -/
theorem contact_fold_onflag_irrelevant (i : Nat) (rad : K) (l : List (Contact K))
    (fx : FixWallRegion K) (f : Nat → Fin 3 → K) (o o' : Nat) :
    (l.foldl (contact_step m i rad) ⟨fx, f, o⟩).fix =
        (l.foldl (contact_step m i rad) ⟨fx, f, o'⟩).fix ∧
    (l.foldl (contact_step m i rad) ⟨fx, f, o⟩).f =
        (l.foldl (contact_step m i rad) ⟨fx, f, o'⟩).f := by
  induction l generalizing fx f with
  | nil => simp
  | cons c l ih => exact ih _ _

/-- After one iteration of the atom loop `onflag` is set exactly when it was
set before or atom `i` is in the group and fails `region->match`. -/
theorem atom_step_onflag (region : Region K) (atom : Atom K) (st : PassState K) (i : Nat) :
    (atom_step m region atom st i).onflag ≠ 0 ↔
      st.onflag ≠ 0 ∨ (atom.mask i &&& st.fix.groupbit ≠ 0 ∧
        region.match_ (atom.x i 0) (atom.x i 1) (atom.x i 2) = false) := by
  unfold atom_step
  split_ifs with h1 h2
  · simp at h2
    simp [h1, h2]
  · simp at h2
    simp [h1, h2, (contact_fold_frame m i _ _ st).1]
  · simp [h1]

/-- After the atom loop `onflag` is set exactly when it was set before or one
of the visited atoms is in the group and fails `region->match`. -/
theorem atom_fold_onflag (region : Region K) (atom : Atom K) (l : List Nat)
    (st : PassState K) :
    (l.foldl (atom_step m region atom) st).onflag ≠ 0 ↔
      st.onflag ≠ 0 ∨ ∃ i ∈ l, atom.mask i &&& st.fix.groupbit ≠ 0 ∧
        region.match_ (atom.x i 0) (atom.x i 1) (atom.x i 2) = false := by
  induction l generalizing st with
  | nil => simp
  | cons i l ih =>
    rw [List.foldl_cons, ih, atom_step_onflag, (atom_step_frame m region atom st i).1]
    simp only [List.mem_cons, exists_eq_or_imp, or_assoc]

/-- The atom loop never changes the force of an atom that is in the group and
fails `region->match`. -/
theorem atom_fold_f_outside (region : Region K) (atom : Atom K) (l : List Nat)
    (st : PassState K) (i : Nat) (hg : atom.mask i &&& st.fix.groupbit ≠ 0)
    (hout : region.match_ (atom.x i 0) (atom.x i 1) (atom.x i 2) = false) :
    (l.foldl (atom_step m region atom) st).f i = st.f i := by
  induction l generalizing st with
  | nil => simp
  | cons j l ih =>
    rw [List.foldl_cons, ih _ (by rw [(atom_step_frame m region atom st j).1]; exact hg)]
    by_cases hj : i = j
    · subst hj
      simp [atom_step, hg, hout]
    · exact (atom_step_frame m region atom st j).2.2.2 i hj

/-- Two atom loops over the same list give the same fix and the same forces
when the second atom set differs from the first only in that the atoms failing
`region->match` have been taken out of the group. -/
theorem atom_fold_outside_removed (region : Region K) (atom atom' : Atom K) (g : Nat)
    (hx : atom'.x = atom.x) (hr : atom'.radius = atom.radius)
    (hm : ∀ i, atom'.mask i &&& g ≠ 0 ↔
      (atom.mask i &&& g ≠ 0 ∧ region.match_ (atom.x i 0) (atom.x i 1) (atom.x i 2) = true))
    (l : List Nat) (st st' : PassState K) (hfix : st'.fix = st.fix) (hf : st'.f = st.f)
    (hg : st.fix.groupbit = g) :
    (l.foldl (atom_step m region atom') st').fix = (l.foldl (atom_step m region atom) st).fix ∧
    (l.foldl (atom_step m region atom') st').f = (l.foldl (atom_step m region atom) st).f := by
  induction l generalizing st st' with
  | nil => exact ⟨hfix, hf⟩
  | cons i l ih =>
    rw [List.foldl_cons, List.foldl_cons]
    have hstep : (atom_step m region atom' st' i).fix = (atom_step m region atom st i).fix ∧
        (atom_step m region atom' st' i).f = (atom_step m region atom st i).f := by
      obtain ⟨fx, f, o⟩ := st
      obtain ⟨fx', f', o'⟩ := st'
      simp only at hfix hf hg
      subst hfix hf hg
      have hmi := hm i
      unfold atom_step
      simp only [hx, hr]
      by_cases h1 : atom.mask i &&& fx'.groupbit ≠ 0
      · by_cases h2 : region.match_ (atom.x i 0) (atom.x i 1) (atom.x i 2) = true
        · have h3 : atom'.mask i &&& fx'.groupbit ≠ 0 := hmi.mpr ⟨h1, h2⟩
          rw [if_pos h3, if_pos h1]
          simp only [h2, Bool.not_true, Bool.false_eq_true, if_false]
          exact contact_fold_onflag_irrelevant m i _ _ _ _ _ _
        · have h3 : ¬ atom'.mask i &&& fx'.groupbit ≠ 0 := fun h => h2 (hmi.mp h).2
          simp only [Bool.not_eq_true] at h2
          rw [if_neg h3, if_pos h1]
          simp [h2]
      · have h3 : ¬ atom'.mask i &&& fx'.groupbit ≠ 0 := fun h => h1 (hmi.mp h).1
        rw [if_neg h3, if_neg h1]
        exact ⟨rfl, rfl⟩
    exact ih _ _ hstep.1 hstep.2 (by rw [(atom_step_frame m region atom st i).1]; exact hg)

end Fold

/-- When `init` returns normally, the fix it returns is `init_coeffs self`. -/
theorem init_ok {region_found : Bool} {atom : Atom K} {flag_peers : Nat}
    {self s : FixWallRegion K}
    (h : init region_found atom flag_peers self = Except.ok s) : s = init_coeffs self := by
  unfold init at h
  split_ifs at h
  exact (Except.ok.inj h).symm

section Setup

@[simp] theorem init_coeffs_cutoff (self : FixWallRegion K) :
    (init_coeffs self).cutoff = self.cutoff := by
  unfold init_coeffs; split_ifs <;> rfl

@[simp] theorem init_coeffs_cutoff_inner (self : FixWallRegion K) :
    (init_coeffs self).cutoff_inner = self.cutoff_inner := by
  unfold init_coeffs; split_ifs <;> rfl

@[simp] theorem init_coeffs_sigma (self : FixWallRegion K) :
    (init_coeffs self).sigma = self.sigma := by
  unfold init_coeffs; split_ifs <;> rfl

@[simp] theorem init_coeffs_style (self : FixWallRegion K) :
    (init_coeffs self).style = self.style := by
  unfold init_coeffs; split_ifs <;> rfl

/-- What a normal return of the constructor tells about its arguments. -/
theorem construct_ok {find_region : String → Int} {numeric : String → Except String K}
    {groupbit : Nat} {uninit : FixWallRegion K} {arg : List String} {s : FixWallRegion K}
    (h : construct find_region numeric groupbit uninit arg = Except.ok s) :
    arg.length = 9 ∧ find_region (arg.getD 3 "") ≠ -1 ∧
    style_of_arg (arg.getD 4 "") = some s.style ∧
    numeric (arg.getD 5 "") = Except.ok s.epsilon ∧
    numeric (arg.getD 6 "") = Except.ok s.sigma ∧
    numeric (arg.getD 7 "") = Except.ok s.cutoff ∧
    numeric (arg.getD 8 "") = Except.ok s.cutoff_inner ∧
    0 < s.cutoff ∧ s.groupbit = groupbit ∧ s.eflag = 0 := by
  unfold construct at h
  split_ifs at h with h1 h2
  simp only [ne_eq, not_not] at h1
  cases hst : style_of_arg (arg.getD 4 "") with
  | none => rw [hst] at h; exact Except.noConfusion h
  | some style =>
    rw [hst] at h
    cases h5 : numeric (arg.getD 5 "") with
    | error e => rw [h5] at h; exact Except.noConfusion h
    | ok epsilon =>
      cases h6 : numeric (arg.getD 6 "") with
      | error e => rw [h5, h6] at h; exact Except.noConfusion h
      | ok sigma =>
        cases h7 : numeric (arg.getD 7 "") with
        | error e => rw [h5, h6, h7] at h; exact Except.noConfusion h
        | ok cutoff =>
          cases h8 : numeric (arg.getD 8 "") with
          | error e => rw [h5, h6, h7, h8] at h; exact Except.noConfusion h
          | ok cutoff_inner =>
            rw [h5, h6, h7, h8] at h
            simp only [Except.bind] at h
            split_ifs at h with hc
            have hs := (Except.ok.inj h).symm
            subst hs
            exact ⟨h1, h2, rfl, rfl, rfl, rfl, rfl, not_le.mp hc, rfl, rfl⟩

end Setup

end FixWallRegion

/-! ## Claims -/

namespace FixWallRegion

/-- C1: for a contact `c` of atom `i` (radius `rad`), the force magnitude
`fwall` left by the loop body of `post_force` is `0` when `c.r ≤ rad`, the
style's force law at `cutoff_inner` times `(c.r - rad)/(cutoff_inner - rad)`
when `rad < c.r ≤ cutoff_inner`, and the style's force law at `c.r`
otherwise; and this magnitude, times the displacement over the distance, is
what the body adds to `f[i]`. -/
theorem post_force_contact_fwall (m : Libm K) (i : Nat) (rad : K) (st : PassState K)
    (c : Contact K) :
    (contact_step m i rad st c).fix.fwall =
      (if c.r ≤ rad then 0
       else if c.r ≤ st.fix.cutoff_inner then
         (style_law m st.fix st.fix.cutoff_inner rad).fwall * (c.r - rad)
           / (st.fix.cutoff_inner - rad)
       else (style_law m st.fix c.r rad).fwall) ∧
    (contact_step m i rad st c).f i =
      ![st.f i 0 + (contact_step m i rad st c).fix.fwall * c.delx * (1 / c.r),
        st.f i 1 + (contact_step m i rad st c).fix.fwall * c.dely * (1 / c.r),
        st.f i 2 + (contact_step m i rad st c).fix.fwall * c.delz * (1 / c.r)] := by
  constructor
  · unfold contact_step contact_fwall
    split_ifs <;> simp
  · simp [contact_step]

/-- C2: a contact at a distance `0 < c.r ≤ rad` (in particular `c.r = rad`)
leaves the whole force array unchanged, so it adds `(0,0,0)` to `f[i]`, and it
leaves `ewall[1]`, `ewall[2]`, `ewall[3]` unchanged. -/
theorem post_force_contact_within_radius (m : Libm K) (i : Nat) (rad : K)
    (st : PassState K) (c : Contact K) (_hpos : 0 < c.r) (hle : c.r ≤ rad) :
    (contact_step m i rad st c).f = st.f ∧
    (contact_step m i rad st c).fix.ewall 1 = st.fix.ewall 1 ∧
    (contact_step m i rad st c).fix.ewall 2 = st.fix.ewall 2 ∧
    (contact_step m i rad st c).fix.ewall 3 = st.fix.ewall 3 := by
  have hF : (contact_fwall m st.fix c.r rad).fwall = 0 := by
    simp [contact_fwall, hle]
  refine ⟨?_, ?_, ?_, ?_⟩
  · funext a k
    by_cases ha : a = i
    · subst ha
      fin_cases k <;> simp [contact_step, hF]
    · simp [contact_step, Function.update_noteq ha]
  · simp [contact_step, hF]
  · simp [contact_step, hF]
  · simp [contact_step, hF]

/-- Witness of C2 on the harmonic example wall: a contact at distance `1/2` of a particle of radius `1`. -/
theorem post_force_contact_within_radius_witness :
    (0 : ℚ) < 1 / 2 ∧
    (contact_step Example.libm 0 1 ⟨Example.harmonicFix, fun _ => ![0, 0, 0], 0⟩
      ⟨1 / 2, 0, 0, 1 / 2⟩).f = fun _ => ![0, 0, 0] :=
  ⟨by norm_num,
   (post_force_contact_within_radius Example.libm 0 1
      ⟨Example.harmonicFix, fun _ => ![0, 0, 0], 0⟩ ⟨1 / 2, 0, 0, 1 / 2⟩
      (by norm_num) (by norm_num)).1⟩

/-- C3: when `rad < cutoff_inner`, a contact at distance exactly
`cutoff_inner` takes the ramp branch (it fails `r ≤ rad` and passes
`r ≤ cutoff_inner`) and its `fwall` is the style's force law evaluated at
`cutoff_inner`, without any reduction. -/
theorem post_force_ramp_at_cutoff_inner (m : Libm K) (i : Nat) (rad : K)
    (st : PassState K) (c : Contact K) (hrad : rad < st.fix.cutoff_inner)
    (hr : c.r = st.fix.cutoff_inner) :
    ¬ c.r ≤ rad ∧ c.r ≤ st.fix.cutoff_inner ∧
    (contact_step m i rad st c).fix.fwall =
      (style_law m st.fix st.fix.cutoff_inner rad).fwall := by
  have h1 : ¬ c.r ≤ rad := by rw [hr]; exact not_le.mpr hrad
  have h2 : c.r ≤ st.fix.cutoff_inner := le_of_eq hr
  have hne : st.fix.cutoff_inner - rad ≠ 0 := sub_ne_zero.mpr (ne_of_gt hrad)
  refine ⟨h1, h2, ?_⟩
  simp only [contact_step, contact_fwall, if_neg h1, if_pos h2, style_law_cutoff_inner]
  rw [hr]
  exact mul_div_cancel_right₀ _ hne

/-- Witness of C3 on the harmonic example wall (`cutoff_inner = 1/2`) for a
particle of radius `1/4`. -/
theorem post_force_ramp_at_cutoff_inner_witness :
    (contact_step Example.libm 0 (1 / 4) ⟨Example.harmonicFix, fun _ => ![0, 0, 0], 0⟩
      ⟨1 / 2, 0, 0, 1 / 2⟩).fix.fwall =
      (style_law Example.libm Example.harmonicFix (1 / 2) (1 / 4)).fwall :=
  (post_force_ramp_at_cutoff_inner Example.libm 0 (1 / 4)
      ⟨Example.harmonicFix, fun _ => ![0, 0, 0], 0⟩ ⟨1 / 2, 0, 0, 1 / 2⟩
      (by norm_num [Example.harmonicFix, Example.wall]) (by norm_num [Example.harmonicFix, Example.wall])).2.2

/-- In exact arithmetic, with the coefficients and the offset that `init`
computes (for a cutoff `> 0`), the energy `eng` set by `lj93(cutoff)` for style
LJ93, and by `lj126(cutoff)` for style LJ126, is `0`. -/
theorem lj_energy_zero_at_cutoff_exact (region_found : Bool) (atom : Atom K) (flag_peers : Nat)
    (self s : FixWallRegion K) (_hcut : 0 < self.cutoff)
    (hinit : init region_found atom flag_peers self = Except.ok s) :
    (self.style = Style.LJ93 → (lj93 s s.cutoff).eng = 0) ∧
    (self.style = Style.LJ126 → (lj126 s s.cutoff).eng = 0) := by
  constructor
  · intro hs
    have : s = init_coeffs self := init_ok hinit
    subst this
    simp [init_coeffs, hs, lj93]
  · intro hs
    have : s = init_coeffs self := init_ok hinit
    subst this
    simp [init_coeffs, hs, lj126]

/-- An instance in exact arithmetic: the LJ93 example wall (`cutoff = 2`) after
`init`. -/
theorem lj_energy_zero_at_cutoff_exact_example :
    (lj93 (init_coeffs Example.lj93Fix) (init_coeffs Example.lj93Fix).cutoff).eng = 0 :=
  (lj_energy_zero_at_cutoff_exact true (Example.atomsOnAxis [1] [0] [1]) 0 Example.lj93Fix
      (init_coeffs Example.lj93Fix) (by norm_num [Example.lj93Fix, Example.wall])
      (by simp [init, Example.lj93Fix, Example.wall])).1 rfl

/-- With the identity as rounding and the exact power as `pow`, the rounded
coefficient block of `init` is the exact one. -/
theorem init_coeffs_fl_id (self : FixWallRegion K) :
    init_coeffs_fl id (fun x n => x ^ n) self = init_coeffs self := rfl

/-- With the identity as rounding, the rounded `lj93` is the exact one. -/
theorem lj93_fl_id (self : FixWallRegion K) (r : K) : lj93_fl id self r = lj93 self r := rfl

/-- With the identity as rounding, the rounded `lj126` is the exact one. -/
theorem lj126_fl_id (self : FixWallRegion K) (r : K) : lj126_fl id self r = lj126 self r :=
  rfl

/-- For style LJ93 the offset of `init` and the energy of `lj93(cutoff)` are
the same sequence of operations on the same operands, so that in rounded
arithmetic the energy at the cutoff is `0` whatever the rounding and `pow`
are, as long as `0` rounds to `0`. -/
theorem lj93_fl_energy_zero_at_cutoff (fl : K → K) (pow : K → Nat → K)
    (self : FixWallRegion K) (h0 : fl 0 = 0) (hs : self.style = Style.LJ93) :
    (lj93_fl fl (init_coeffs_fl fl pow self) self.cutoff).eng = 0 := by
  simp [init_coeffs_fl, lj93_fl, hs, h0]

/-- C4, evaluation at the failing input: style LJ126 with `epsilon = 1`,
`sigma = 1`, `cutoff = 5`, every operation rounded to the nearest `double`.
`init` forms `r2inv = 1.0/(cutoff*cutoff) = 5764607523034235 * 2^(-57)`,
whereas `lj126(5)` forms `r2inv = rinv*rinv = 5764607523034236 * 2^(-57)`
from `rinv = 1.0/5.0`; the offset is `-4722064251414743 * 2^(-64)`, the energy
before the offset is subtracted is `-4722064251414745 * 2^(-64)`, and
`lj126(cutoff)` leaves `eng = -2^(-63)`, not `0`.  In exact arithmetic the
same input gives `eng = 0`. -/
theorem lj126_energy_at_cutoff_rounded :
    round_double (1 / round_double (5 * 5)) = 5764607523034235 / 2 ^ 57 ∧
    round_double (round_double (1 / 5) * round_double (1 / 5)) = 5764607523034236 / 2 ^ 57 ∧
    (init_coeffs_fl round_double Example.pow_double (Example.wall ℚ Style.LJ126 5)).offset
      = -(4722064251414743 / 2 ^ 64) ∧
    (lj126_fl round_double
      (init_coeffs_fl round_double Example.pow_double (Example.wall ℚ Style.LJ126 5)) 5).eng
      = -(1 / 2 ^ 63) ∧
    (lj126_fl round_double
      (init_coeffs_fl round_double Example.pow_double (Example.wall ℚ Style.LJ126 5)) 5).eng
      ≠ 0 ∧
    (lj126 (init_coeffs (Example.wall ℚ Style.LJ126 5)) 5).eng = 0 := by
  refine ⟨by decide!, by decide!, by decide!, by decide!, by decide!, ?_⟩
  simp [init_coeffs, lj126, Example.wall]

/-- C5 (evaluation at the failing input): over the reals, with `Real.log`, the
colloid wall with `epsilon = 1`, `sigma = 1`, `cutoff = 3/2` after
`init_coeffs` gives a particle of radius `1/2` at distance `3/2 = cutoff` an
energy different from `0`. -/
theorem colloid_energy_at_cutoff_ne_zero :
    (colloid ⟨Real.exp, Real.log⟩ (init_coeffs (Example.wall ℝ Style.COLLOID (3 / 2)))
      (3 / 2) (1 / 2)).eng ≠ 0 := by
  have hlog : Real.log 2 < 1 := by
    have := Real.log_lt_sub_one_of_pos (by norm_num : (0 : ℝ) < 2) (by norm_num)
    linarith
  have h1 : -(1 / 2 * (2 * (1 / 2 : ℝ)) - 3 / 2) = 1 := by norm_num
  have h2 : (3 / 2 + 1 / 2 * (2 * (1 / 2 : ℝ))) = 2 := by norm_num
  simp only [colloid, init_coeffs, Example.wall, h1, h2, Real.log_one, reduceCtorEq, if_false,
    if_true]
  norm_num
  intro h
  linarith

/-- C6: after a pass of `post_force`, for each axis `k` the local tally
`ewall[k+1]` is the negation of the sum, over the atoms `i < N` for any
`N ≥ nlocal` (owned atoms, and any number of ghosts), of the change
`f_after[i][k] - f_before[i][k]` that the pass made. -/
theorem post_force_tally_is_reaction (m : Libm K) (region : Region K) (atom : Atom K)
    (self : FixWallRegion K) (N : Nat) (hN : atom.nlocal ≤ N) (k : Fin 3) :
    (post_force m region atom self).fix.ewall k.succ =
      - ∑ i in Finset.range N, ((post_force m region atom self).f i k - atom.f i k) := by
  have h := atom_fold_balance m region atom N (List.range atom.nlocal)
    (fun i hi => lt_of_lt_of_le (List.mem_range.mp hi) hN)
    { fix := { self with eflag := 0, ewall := ![0, 0, 0, 0] }, f := atom.f, onflag := 0 } k
  have h0 : (![0, 0, 0, 0] : Fin 4 → K) k.succ = 0 := by fin_cases k <;> rfl
  simp only [h0, zero_add] at h
  simp only [post_force, Finset.sum_sub_distrib]
  linarith

/-- Witness of C6: two atoms above the harmonic example wall, summed over
three atom slots. -/
theorem post_force_tally_is_reaction_witness :
    (post_force Example.libm Example.halfSpace
        (Example.atomsOnAxis [1, 1 / 2] [0, 1] [1, 1]) Example.harmonicFix).fix.ewall 3 =
      - ∑ i in Finset.range 3,
          ((post_force Example.libm Example.halfSpace
              (Example.atomsOnAxis [1, 1 / 2] [0, 1] [1, 1]) Example.harmonicFix).f i 2
            - (Example.atomsOnAxis [1, 1 / 2] [0, 1] [1, 1]).f i 2) :=
  post_force_tally_is_reaction Example.libm Example.halfSpace
    (Example.atomsOnAxis [1, 1 / 2] [0, 1] [1, 1]) Example.harmonicFix 3
    (by simp [Example.atomsOnAxis]) 2

/-- C7: `post_force` ends in the fatal error exactly when some owned atom of
the fix group fails `region->match`.  The error is produced after the atom
loop: the forces it leaves are those of the completed pass, in which an atom
that is in the group and fails `region->match` keeps its force, and in which
all forces (and the fix) are what the pass computes for the atom set obtained
by taking the atoms that fail `region->match` out of the group. -/
theorem post_force_error_iff_outside_region (m : Libm K) (region : Region K) (atom : Atom K)
    (self : FixWallRegion K) :
    ((post_force m region atom self).error =
        some "Particle on or inside surface of region used in fix wall/region" ↔
      ∃ i, i < atom.nlocal ∧ atom.mask i &&& self.groupbit ≠ 0 ∧
        region.match_ (atom.x i 0) (atom.x i 1) (atom.x i 2) = false) ∧
    (∀ i, atom.mask i &&& self.groupbit ≠ 0 →
      region.match_ (atom.x i 0) (atom.x i 1) (atom.x i 2) = false →
      (post_force m region atom self).f i = atom.f i) ∧
    (∀ atom' : Atom K, atom'.x = atom.x → atom'.f = atom.f → atom'.radius = atom.radius →
      atom'.nlocal = atom.nlocal →
      (∀ i, atom'.mask i &&& self.groupbit ≠ 0 ↔
        (atom.mask i &&& self.groupbit ≠ 0 ∧
          region.match_ (atom.x i 0) (atom.x i 1) (atom.x i 2) = true)) →
      (post_force m region atom' self).f = (post_force m region atom self).f ∧
      (post_force m region atom' self).fix = (post_force m region atom self).fix) := by
  refine ⟨?_, ?_, ?_⟩
  · have h := atom_fold_onflag m region atom (List.range atom.nlocal)
      { fix := { self with eflag := 0, ewall := ![0, 0, 0, 0] }, f := atom.f, onflag := 0 }
    simp only [ne_eq, not_true_eq_false, false_or, List.mem_range] at h
    simp only [post_force]
    rw [← h]
    split_ifs with h0 <;> simp [h0]
  · intro i hg hout
    exact atom_fold_f_outside m region atom (List.range atom.nlocal)
      { fix := { self with eflag := 0, ewall := ![0, 0, 0, 0] }, f := atom.f, onflag := 0 }
      i hg hout
  · intro atom' hx hf hr hn hm
    have h := atom_fold_outside_removed m region atom atom' self.groupbit hx hr hm
      (List.range atom.nlocal)
      { fix := { self with eflag := 0, ewall := ![0, 0, 0, 0] }, f := atom.f, onflag := 0 }
      { fix := { self with eflag := 0, ewall := ![0, 0, 0, 0] }, f := atom'.f, onflag := 0 }
      rfl hf rfl
    simp only [post_force, hn]
    exact ⟨h.2, h.1⟩

/-- Witness of C7: of two group atoms, the second lies below the example wall;
the pass ends in the error, and the forces are those of the pass in which the
second atom is not in the group. -/
theorem post_force_error_iff_outside_region_witness :
    (post_force Example.libm Example.halfSpace
        (Example.atomsOnAxis [1, -1] [0, 0] [1, 1]) Example.harmonicFix).error =
      some "Particle on or inside surface of region used in fix wall/region" ∧
    (post_force Example.libm Example.halfSpace
        (Example.atomsOnAxis [1, -1] [0, 0] [1, 0]) Example.harmonicFix).f =
      (post_force Example.libm Example.halfSpace
        (Example.atomsOnAxis [1, -1] [0, 0] [1, 1]) Example.harmonicFix).f :=
  ⟨(post_force_error_iff_outside_region Example.libm Example.halfSpace
      (Example.atomsOnAxis [1, -1] [0, 0] [1, 1]) Example.harmonicFix).1.mpr
      ⟨1, by simp [Example.atomsOnAxis], by
        simp [Example.atomsOnAxis, Example.harmonicFix, Example.wall], by
        simp [Example.atomsOnAxis, Example.halfSpace]⟩,
   ((post_force_error_iff_outside_region Example.libm Example.halfSpace
      (Example.atomsOnAxis [1, -1] [0, 0] [1, 1]) Example.harmonicFix).2.2
      (Example.atomsOnAxis [1, -1] [0, 0] [1, 0]) rfl rfl rfl rfl (by
        intro i
        rcases i with _ | _ | i <;>
          simp [Example.atomsOnAxis, Example.halfSpace, Example.harmonicFix, Example.wall])).1⟩

/-- C8 (counterexample): a group atom lying exactly on the example wall is
matched by the region and has a surface contact at distance `r = 0`, yet the
pass of the harmonic wall ends without error; likewise a group atom of radius
`1` at distance `1/2` from a colloid wall (`r ≤ radius`) raises no error. -/
theorem post_force_zero_distance_no_error :
    Example.halfSpace.match_ 0 0 0 = true ∧
    Example.halfSpace.surface 0 0 0 Example.harmonicFix.cutoff = [⟨0, 0, 0, 0⟩] ∧
    (post_force Example.libm Example.halfSpace
        (Example.atomsOnAxis [0] [0] [1]) Example.harmonicFix).error = none ∧
    Example.halfSpace.surface 0 0 (1 / 2) (Example.wall ℚ Style.COLLOID 2).cutoff
      = [⟨1 / 2, 0, 0, 1 / 2⟩] ∧
    (post_force Example.libm Example.halfSpace
        (Example.atomsOnAxis [1 / 2] [1] [1])
        (init_coeffs (Example.wall ℚ Style.COLLOID 2))).error = none := by
  refine ⟨?_, ?_, ?_, ?_, ?_⟩
  · simp [Example.halfSpace]
  · simp [Example.halfSpace, Example.harmonicFix, Example.wall]
  · simp [post_force, atom_step, Example.atomsOnAxis, Example.halfSpace, Example.harmonicFix,
      Example.wall, List.range_succ, (contact_fold_frame _ _ _ _ _).1]
  · norm_num [Example.halfSpace, Example.wall]
  · simp [post_force, atom_step, init_coeffs, Example.atomsOnAxis, Example.halfSpace,
      Example.wall, List.range_succ, (contact_fold_frame _ _ _ _ _).1]

/-- C8 (amended): when every owned atom of the group passes `region->match`,
`post_force` ends without error, whatever the distances of the contacts; and
for every style a contact with `r ≤ radius` (so also `r = 0` for a radius
`≥ 0`) leaves `onflag` as it is and gets `fwall = 0`. -/
theorem post_force_no_error_of_all_match (m : Libm K) (region : Region K) (atom : Atom K)
    (self : FixWallRegion K)
    (hall : ∀ i, i < atom.nlocal → atom.mask i &&& self.groupbit ≠ 0 →
      region.match_ (atom.x i 0) (atom.x i 1) (atom.x i 2) = true) :
    (post_force m region atom self).error = none ∧
    ∀ (i : Nat) (rad : K) (st : PassState K) (c : Contact K), c.r ≤ rad →
      (contact_step m i rad st c).onflag = st.onflag ∧
      (contact_step m i rad st c).fix.fwall = 0 := by
  constructor
  · have h := atom_fold_onflag m region atom (List.range atom.nlocal)
      { fix := { self with eflag := 0, ewall := ![0, 0, 0, 0] }, f := atom.f, onflag := 0 }
    simp only [ne_eq, not_true_eq_false, false_or, List.mem_range] at h
    have h0 : ¬ ∃ i, i < atom.nlocal ∧ ¬ atom.mask i &&& self.groupbit = 0 ∧
        region.match_ (atom.x i 0) (atom.x i 1) (atom.x i 2) = false := by
      rintro ⟨i, hi, hg, hout⟩
      rw [hall i hi hg] at hout
      exact Bool.noConfusion hout
    have h1 := (not_congr h).mpr h0
    simp only [not_not] at h1
    simp [post_force, h1]
  · intro i rad st c hle
    exact ⟨rfl, by simp [contact_step, contact_fwall, hle]⟩

/-- Witness of C8 (amended): the group atom lying on the example wall. -/
theorem post_force_no_error_of_all_match_witness :
    (post_force Example.libm Example.halfSpace
        (Example.atomsOnAxis [0] [0] [1]) Example.harmonicFix).error = none :=
  (post_force_no_error_of_all_match Example.libm Example.halfSpace
    (Example.atomsOnAxis [0] [0] [1]) Example.harmonicFix (by
      intro i hi _
      have hi0 : i = 0 := by simpa [Example.atomsOnAxis] using hi
      subst hi0
      simp [Example.atomsOnAxis, Example.halfSpace])).1

/-- C9 (evaluation at the failing input): on the harmonic example wall, whatever
value `e` the member `eng` holds before the pass, atom A (height `1`, radius
`0`) and atom B (height `1/2`, radius `1`, so its contact has `r ≤ radius`)
processed by one process give `compute_scalar() = 2`, whereas A and B
processed by two processes give `compute_scalar() = 1 + e`; with atom A2
(height `3/2`, radius `0`) in place of A the two totals are `1/2` and
`1/4 + e`.  So for no `e` do both configurations give the same energy in the
split run as in the single run, while the components of `compute_vector`
agree. -/
theorem wall_energy_depends_on_split (e : ℚ) :
    (compute_scalar []
      (post_force Example.libm Example.halfSpace
        (Example.atomsOnAxis [1, 1 / 2] [0, 1] [1, 1]) (Example.harmonicFixEng e)).fix).1 = 2 ∧
    (compute_scalar
      [(post_force Example.libm Example.halfSpace
        (Example.atomsOnAxis [1 / 2] [1] [1]) (Example.harmonicFixEng e)).fix.ewall]
      (post_force Example.libm Example.halfSpace
        (Example.atomsOnAxis [1] [0] [1]) (Example.harmonicFixEng e)).fix).1 = 1 + e ∧
    (compute_scalar []
      (post_force Example.libm Example.halfSpace
        (Example.atomsOnAxis [3 / 2, 1 / 2] [0, 1] [1, 1]) (Example.harmonicFixEng e)).fix).1
      = 1 / 2 ∧
    (compute_scalar
      [(post_force Example.libm Example.halfSpace
        (Example.atomsOnAxis [1 / 2] [1] [1]) (Example.harmonicFixEng e)).fix.ewall]
      (post_force Example.libm Example.halfSpace
        (Example.atomsOnAxis [3 / 2] [0] [1]) (Example.harmonicFixEng e)).fix).1 = 1 / 4 + e ∧
    ¬ ((2 : ℚ) = 1 + e ∧ (1 / 2 : ℚ) = 1 / 4 + e) ∧
    ∀ n : Fin 3,
      (compute_vector n []
        (post_force Example.libm Example.halfSpace
          (Example.atomsOnAxis [1, 1 / 2] [0, 1] [1, 1]) (Example.harmonicFixEng e)).fix).1 =
      (compute_vector n
        [(post_force Example.libm Example.halfSpace
          (Example.atomsOnAxis [1 / 2] [1] [1]) (Example.harmonicFixEng e)).fix.ewall]
        (post_force Example.libm Example.halfSpace
          (Example.atomsOnAxis [1] [0] [1]) (Example.harmonicFixEng e)).fix).1 := by
  refine ⟨?_, ?_, ?_, ?_, ?_, ?_⟩
  · norm_num [compute_scalar, compute_vector, MPI_Allreduce_SUM, post_force, atom_step,
      contact_step, contact_fwall, style_law_of_harmonic, harmonic, Example.atomsOnAxis,
      Example.halfSpace, Example.harmonicFixEng, Example.wall, List.range_succ]
  · norm_num [compute_scalar, compute_vector, MPI_Allreduce_SUM, post_force, atom_step,
      contact_step, contact_fwall, style_law_of_harmonic, harmonic, Example.atomsOnAxis,
      Example.halfSpace, Example.harmonicFixEng, Example.wall, List.range_succ]
  · norm_num [compute_scalar, compute_vector, MPI_Allreduce_SUM, post_force, atom_step,
      contact_step, contact_fwall, style_law_of_harmonic, harmonic, Example.atomsOnAxis,
      Example.halfSpace, Example.harmonicFixEng, Example.wall, List.range_succ]
  · norm_num [compute_scalar, compute_vector, MPI_Allreduce_SUM, post_force, atom_step,
      contact_step, contact_fwall, style_law_of_harmonic, harmonic, Example.atomsOnAxis,
      Example.halfSpace, Example.harmonicFixEng, Example.wall, List.range_succ]
  · rintro ⟨h1, h2⟩
    linarith
  · intro n
    fin_cases n <;>
    norm_num [compute_scalar, compute_vector, MPI_Allreduce_SUM, post_force, atom_step,
      contact_step, contact_fwall, style_law_of_harmonic, harmonic, Example.atomsOnAxis,
      Example.halfSpace, Example.harmonicFixEng, Example.wall, List.range_succ]

/-- C10: a pass of `post_force` leaves `eflag = 0`.  The first read after it,
be it `compute_scalar` or `compute_vector n`, stores the cross-process sum of
`ewall` in `ewall_all`, sets `eflag = 1` and returns component `0`,
respectively `n+1`, of that sum.  In the state `s1` it leaves, every
`compute_scalar` and `compute_vector n2` returns `s1.ewall_all[0]`,
respectively `s1.ewall_all[n2+1]`, and leaves `s1` as it is, whatever the
peers would contribute (`peers2`): no new reduction takes place. -/
theorem wall_tally_readout_lazy_cached (m : Libm K) (region : Region K) (atom : Atom K)
    (self : FixWallRegion K) (peers peers2 : List (Fin 4 → K)) (n n2 : Fin 3) :
    (post_force m region atom self).fix.eflag = 0 ∧
    (compute_scalar peers (post_force m region atom self).fix).2.eflag = 1 ∧
    (compute_scalar peers (post_force m region atom self).fix).2.ewall_all =
      MPI_Allreduce_SUM (post_force m region atom self).fix.ewall peers ∧
    (compute_scalar peers (post_force m region atom self).fix).1 =
      MPI_Allreduce_SUM (post_force m region atom self).fix.ewall peers 0 ∧
    (compute_vector n peers (post_force m region atom self).fix).2 =
      (compute_scalar peers (post_force m region atom self).fix).2 ∧
    (compute_vector n peers (post_force m region atom self).fix).1 =
      MPI_Allreduce_SUM (post_force m region atom self).fix.ewall peers n.succ ∧
    compute_scalar peers2 (compute_scalar peers (post_force m region atom self).fix).2 =
      ((compute_scalar peers (post_force m region atom self).fix).2.ewall_all 0,
       (compute_scalar peers (post_force m region atom self).fix).2) ∧
    compute_vector n2 peers2 (compute_scalar peers (post_force m region atom self).fix).2 =
      ((compute_scalar peers (post_force m region atom self).fix).2.ewall_all n2.succ,
       (compute_scalar peers (post_force m region atom self).fix).2) := by
  have h0 : (post_force m region atom self).fix.eflag = 0 := by
    have h := (atom_fold_frame m region atom (List.range atom.nlocal)
      { fix := { self with eflag := 0, ewall := ![0, 0, 0, 0] }, f := atom.f, onflag := 0 }).2.2
    simpa [post_force] using h
  refine ⟨h0, ?_, ?_, ?_, ?_, ?_, ?_, ?_⟩ <;> simp [compute_scalar, compute_vector, h0]

/-- C11: `harmonic(r)` sets `fwall = 2*epsilon*(cutoff - r)` and
`eng = epsilon*(cutoff - r)^2` for every `r`; at `r = cutoff` both are `0`. -/
theorem harmonic_force_and_energy (self : FixWallRegion K) (r : K) :
    (harmonic self r).fwall = 2 * self.epsilon * (self.cutoff - r) ∧
    (harmonic self r).eng = self.epsilon * (self.cutoff - r) ^ 2 ∧
    (harmonic self self.cutoff).fwall = 0 ∧
    (harmonic self self.cutoff).eng = 0 := by
  refine ⟨rfl, ?_, ?_, ?_⟩
  · simp only [harmonic]; ring
  · simp [harmonic]
  · simp [harmonic]

/-- C13 (counterexample): the constructor and `init` accept a harmonic wall
with `cutoff = 1` and `cutoff_inner = 2`; for a contact at distance
`1/2 ≤ cutoff` of a particle of radius `0` the force law is called at
`cutoff_inner = 2 > cutoff`, and the energy left is that of `harmonic(2)`. -/
theorem harmonic_called_beyond_cutoff :
    ∃ s s2 : FixWallRegion ℚ,
      construct Example.find_region Example.numeric 1 (Example.wall ℚ Style.LJ93 0)
        (Example.args "harmonic" "1" "1" "1" "2") = Except.ok s ∧
      init true (Example.atomsOnAxis [1 / 2] [0] [1]) 0 s = Except.ok s2 ∧
      (1 / 2 : ℚ) ≤ s2.cutoff ∧
      contact_law_arg s2 (1 / 2) 0 = some 2 ∧
      s2.cutoff < 2 ∧
      (contact_fwall Example.libm s2 (1 / 2) 0).eng = (harmonic s2 2).eng := by
  refine ⟨{ Example.wall ℚ Style.HARMONIC 1 with cutoff_inner := 2 },
    { Example.wall ℚ Style.HARMONIC 1 with cutoff_inner := 2 }, ?_, ?_, ?_, ?_, ?_, ?_⟩
  · simp [construct, Example.args, Example.find_region, Example.numeric, style_of_arg,
      Except.bind, Example.wall]
  · simp [init, init_coeffs, Example.wall]
  · norm_num [Example.wall]
  · norm_num [contact_law_arg, Example.wall]
  · norm_num [Example.wall]
  · norm_num [contact_fwall, style_law_of_harmonic, harmonic, Example.wall]

/-- C13 (amended): for a harmonic wall with `cutoff_inner ≤ cutoff` and a
contact at distance `r ≤ cutoff`, every distance `a` at which `post_force`
calls the force law is `≤ cutoff`, and the energy left by the branch is that
of `harmonic(a)`. -/
theorem harmonic_called_within_cutoff (m : Libm K) (self : FixWallRegion K) (r rad a : K)
    (hstyle : self.style = Style.HARMONIC) (hci : self.cutoff_inner ≤ self.cutoff)
    (hr : r ≤ self.cutoff) (ha : contact_law_arg self r rad = some a) :
    a ≤ self.cutoff ∧ (contact_fwall m self r rad).eng = (harmonic self a).eng := by
  unfold contact_law_arg at ha
  unfold contact_fwall
  split_ifs at ha ⊢ with h1 h2
  · have := Option.some.inj ha
    subst this
    exact ⟨hci, by simp [style_law_of_harmonic, hstyle, harmonic]⟩
  · have := Option.some.inj ha
    subst this
    exact ⟨hr, by simp [style_law_of_harmonic, hstyle]⟩

/-- Witness of C13 (amended) on the harmonic example wall (`cutoff = 2`,
`cutoff_inner = 1/2`): a contact at distance `1` of a particle of radius `0`. -/
theorem harmonic_called_within_cutoff_witness :
    (1 : ℚ) ≤ Example.harmonicFix.cutoff ∧
    (contact_fwall Example.libm Example.harmonicFix 1 0).eng =
      (harmonic Example.harmonicFix 1).eng :=
  harmonic_called_within_cutoff Example.libm Example.harmonicFix 1 0 1
    (by simp [Example.harmonicFix, Example.wall])
    (by norm_num [Example.harmonicFix, Example.wall])
    (by norm_num [Example.harmonicFix, Example.wall])
    (by norm_num [contact_law_arg, Example.harmonicFix, Example.wall])

/-- C14 (counterexample): the constructor and `init` accept the arguments
`lj93 1 1 1 2`, whose inner cutoff `2` exceeds the outer cutoff `1`; the
instance they return has `cutoff < cutoff_inner`. -/
theorem setup_accepts_inner_above_outer :
    ∃ s s2 : FixWallRegion ℚ,
      construct Example.find_region Example.numeric 1 (Example.wall ℚ Style.LJ93 0)
        (Example.args "lj93" "1" "1" "1" "2") = Except.ok s ∧
      init true (Example.atomsOnAxis [1 / 2] [0] [1]) 0 s = Except.ok s2 ∧
      s2.cutoff < s2.cutoff_inner := by
  refine ⟨{ Example.wall ℚ Style.LJ93 1 with cutoff_inner := 2 },
    init_coeffs { Example.wall ℚ Style.LJ93 1 with cutoff_inner := 2 }, ?_, ?_, ?_⟩
  · simp [construct, Example.args, Example.find_region, Example.numeric, style_of_arg,
      Except.bind, Example.wall]
  · simp [init, Example.wall]
  · norm_num [Example.wall]

/-- C14 (amended): setup raises an error for every argument list whose outer
cutoff (arg 7) is `≤ 0`; an instance returned by the constructor and `init`
has `cutoff > 0`, and its `cutoff` and `cutoff_inner` are the numbers written
in arg 7 and arg 8, which are not compared with each other. -/
theorem setup_checks_outer_cutoff_only (find_region : String → Int)
    (numeric : String → Except String K) (groupbit : Nat) (uninit : FixWallRegion K)
    (arg : List String) (region_found : Bool) (atom : Atom K) (flag_peers : Nat) :
    (∀ c, numeric (arg.getD 7 "") = Except.ok c → c ≤ 0 →
      ∀ s, construct find_region numeric groupbit uninit arg ≠ Except.ok s) ∧
    (∀ s s2, construct find_region numeric groupbit uninit arg = Except.ok s →
      init region_found atom flag_peers s = Except.ok s2 →
      0 < s2.cutoff ∧ numeric (arg.getD 7 "") = Except.ok s2.cutoff ∧
      numeric (arg.getD 8 "") = Except.ok s2.cutoff_inner) := by
  constructor
  · intro c hc hle s hs
    obtain ⟨-, -, -, -, -, h7, -, hpos, -, -⟩ := construct_ok hs
    rw [hc] at h7
    have := Except.ok.inj h7
    subst this
    exact absurd hpos (not_lt.mpr hle)
  · intro s s2 hs hi
    obtain ⟨-, -, -, -, -, h7, h8, hpos, -, -⟩ := construct_ok hs
    have := init_ok hi
    subst this
    simp only [init_coeffs_cutoff, init_coeffs_cutoff_inner]
    exact ⟨hpos, h7, h8⟩

/-- Witness of C14 (amended): the arguments `lj93 1 1 2 0.5`. -/
theorem setup_checks_outer_cutoff_only_witness :
    (0 : ℚ) < (init_coeffs { Example.wall ℚ Style.LJ93 2 with cutoff_inner := 1 / 2 }).cutoff :=
  ((setup_checks_outer_cutoff_only Example.find_region Example.numeric 1
      (Example.wall ℚ Style.LJ93 0) (Example.args "lj93" "1" "1" "2" "0.5") true
      (Example.atomsOnAxis [1 / 2] [0] [1]) 0).2
    { Example.wall ℚ Style.LJ93 2 with cutoff_inner := 1 / 2 }
    (init_coeffs { Example.wall ℚ Style.LJ93 2 with cutoff_inner := 1 / 2 })
    (by simp [construct, Example.args, Example.find_region, Example.numeric, style_of_arg,
      Except.bind, Example.wall])
    (by simp [init, Example.wall])).1

/-- C15: the constructor ends in an error when arg 4 is none of `lj93`,
`lj126`, `colloid`, `harmonic`, `edl`, and when the outer cutoff written in
arg 7 is `≤ 0`; when it returns normally, `style` is the enumeration value
named by arg 4 and `cutoff > 0`. -/
theorem construct_style_and_cutoff (find_region : String → Int)
    (numeric : String → Except String K) (groupbit : Nat) (uninit : FixWallRegion K)
    (arg : List String) :
    (arg.getD 4 "" ∉ ["lj93", "lj126", "colloid", "harmonic", "edl"] →
      ∃ msg, construct find_region numeric groupbit uninit arg = Except.error msg) ∧
    (∀ c, numeric (arg.getD 7 "") = Except.ok c → c ≤ 0 →
      ∃ msg, construct find_region numeric groupbit uninit arg = Except.error msg) ∧
    (∀ s, construct find_region numeric groupbit uninit arg = Except.ok s →
      ((arg.getD 4 "" = "lj93" ∧ s.style = Style.LJ93) ∨
       (arg.getD 4 "" = "lj126" ∧ s.style = Style.LJ126) ∨
       (arg.getD 4 "" = "colloid" ∧ s.style = Style.COLLOID) ∨
       (arg.getD 4 "" = "harmonic" ∧ s.style = Style.HARMONIC) ∨
       (arg.getD 4 "" = "edl" ∧ s.style = Style.EDL)) ∧
      0 < s.cutoff) := by
  have herr : ∀ r : Except String (FixWallRegion K), (∀ s, r ≠ Except.ok s) →
      ∃ msg, r = Except.error msg := by
    intro r hr
    cases r with
    | error e => exact ⟨e, rfl⟩
    | ok v => exact absurd rfl (hr v)
  refine ⟨?_, ?_, ?_⟩
  · intro hnot
    apply herr
    intro s hs
    obtain ⟨-, -, hst, -⟩ := construct_ok hs
    simp only [List.mem_cons, List.mem_singleton, List.not_mem_nil, or_false, not_or] at hnot
    obtain ⟨n1, n2, n3, n4, n5⟩ := hnot
    unfold style_of_arg at hst
    rw [if_neg n1, if_neg n2, if_neg n3, if_neg n4, if_neg n5] at hst
    exact Option.noConfusion hst
  · intro c hc hle
    apply herr
    intro s hs
    obtain ⟨-, -, -, -, -, h7, -, hpos, -, -⟩ := construct_ok hs
    rw [hc] at h7
    have := Except.ok.inj h7
    subst this
    exact absurd hpos (not_lt.mpr hle)
  · intro s hs
    obtain ⟨-, -, hst, -, -, -, -, hpos, -, -⟩ := construct_ok hs
    refine ⟨?_, hpos⟩
    unfold style_of_arg at hst
    split_ifs at hst with n1 n2 n3 n4 n5
    · exact Or.inl ⟨n1, (Option.some.inj hst).symm⟩
    · exact Or.inr (Or.inl ⟨n2, (Option.some.inj hst).symm⟩)
    · exact Or.inr (Or.inr (Or.inl ⟨n3, (Option.some.inj hst).symm⟩))
    · exact Or.inr (Or.inr (Or.inr (Or.inl ⟨n4, (Option.some.inj hst).symm⟩)))
    · exact Or.inr (Or.inr (Or.inr (Or.inr ⟨n5, (Option.some.inj hst).symm⟩)))

/-- Witness of C15: the style name `lj` is rejected. -/
theorem construct_style_and_cutoff_witness :
    ∃ msg, construct Example.find_region Example.numeric 1 (Example.wall ℚ Style.LJ93 0)
      (Example.args "lj" "1" "1" "2" "0.5") = Except.error msg :=
  (construct_style_and_cutoff Example.find_region Example.numeric 1
    (Example.wall ℚ Style.LJ93 0) (Example.args "lj" "1" "1" "2" "0.5")).1
    (by simp [Example.args])

end FixWallRegion

/-! ## Pairwise Beck kernel: auxiliary lemmas -/

namespace PairBeckOMP

variable {T : Type}

/-- A property that holds at the start of a left fold and is kept by every
step over an element of the list holds at its end. -/
theorem foldl_keeps {α β : Type} (P : β → Prop) (g : β → α → β) (l : List α) (b : β)
    (hb : P b) (hstep : ∀ b a, a ∈ l → P b → P (g b a)) : P (l.foldl g b) := by
  induction l generalizing b with
  | nil => exact hb
  | cons a l ih =>
    exact ih (g b a) (hstep b a (List.mem_cons_self _ _) hb)
      (fun b2 a2 ha2 hP => hstep b2 a2 (List.mem_cons_of_mem _ ha2) hP)

/-- Adding `0.0` to the three components of `f[i]` leaves the array as it is. -/
theorem update_add_zero (f : Nat → Fin 3 → K) (i : Nat) :
    Function.update f i ![f i 0 + 0, f i 1 + 0, f i 2 + 0] = f := by
  funext a
  by_cases ha : a = i
  · subst ha
    funext k
    fin_cases k <;> simp
  · simp [Function.update_noteq ha]

/-- Outside the cutoff the body of the neighbor loop does nothing. -/
theorem neigh_step_outside (EVFLAG EFLAG NEWTON_PAIR : Bool) (env : PairEnv K T)
    (p : PairBeck K) (i : Nat) (st : EvalState K T) (jtag : Nat)
    (h : ¬ rsq env i (jtag &&& env.NEIGHMASK) <
      p.cutsq (env.type i) (env.type (jtag &&& env.NEIGHMASK))) :
    neigh_step EVFLAG EFLAG NEWTON_PAIR env p i st jtag = st := by
  simp only [neigh_step, if_neg h]

/-- The body of the neighbor loop changes the force of no atom other than `i`
and the neighbor. -/
theorem neigh_step_f_other (EVFLAG EFLAG NEWTON_PAIR : Bool) (env : PairEnv K T)
    (p : PairBeck K) (i : Nat) (st : EvalState K T) (jtag a : Nat)
    (hi : a ≠ i) (hj : a ≠ jtag &&& env.NEIGHMASK) :
    (neigh_step EVFLAG EFLAG NEWTON_PAIR env p i st jtag).f a = st.f a := by
  simp only [neigh_step]
  split_ifs <;> simp [Function.update_noteq hi, Function.update_noteq hj]

/-- Without the reaction (`NEWTON_PAIR` off and the neighbor not owned) the
body of the neighbor loop changes the force of no atom other than `i`. -/
theorem neigh_step_f_ghost (EVFLAG EFLAG : Bool) (env : PairEnv K T)
    (p : PairBeck K) (i : Nat) (st : EvalState K T) (jtag a : Nat)
    (hi : a ≠ i) (ha : env.nlocal ≤ a) :
    (neigh_step EVFLAG EFLAG false env p i st jtag).f a = st.f a := by
  by_cases hj : a = jtag &&& env.NEIGHMASK
  · have hn : ¬ (false = true ∨ jtag &&& env.NEIGHMASK < env.nlocal) := by
      rintro (h | h)
      · exact Bool.noConfusion h
      · rw [← hj] at h
        exact absurd h (not_lt.mpr ha)
    by_cases hc : rsq env i (jtag &&& env.NEIGHMASK) <
        p.cutsq (env.type i) (env.type (jtag &&& env.NEIGHMASK))
    · simp only [neigh_step, if_pos hc, if_neg hn]
      exact Function.update_noteq hi _ _
    · rw [neigh_step_outside EVFLAG EFLAG false env p i st jtag hc]
  · exact neigh_step_f_other EVFLAG EFLAG false env p i st jtag a hi hj

/-- With the reaction applied to every neighbor, the body of the neighbor loop
keeps the sum of component `k` of the forces of the first `N` atoms. -/
theorem neigh_step_sum (EVFLAG EFLAG : Bool) (env : PairEnv K T) (p : PairBeck K)
    (i N : Nat) (st : EvalState K T) (jtag : Nat) (k : Fin 3)
    (hi : i < N) (hj : jtag &&& env.NEIGHMASK < N) :
    ∑ a in Finset.range N, (neigh_step EVFLAG EFLAG true env p i st jtag).f a k =
      ∑ a in Finset.range N, st.f a k := by
  by_cases hc : rsq env i (jtag &&& env.NEIGHMASK) <
      p.cutsq (env.type i) (env.type (jtag &&& env.NEIGHMASK))
  · simp only [neigh_step, if_pos hc, true_or, if_true]
    rw [FixWallRegion.sum_update_component _ _ N hj, FixWallRegion.sum_update_component _ _ N hi]
    fin_cases k <;> simp
  · rw [neigh_step_outside EVFLAG EFLAG true env p i st jtag hc]

/-- The body of the atom loop, written with the final addition of
`fxtmp = fytmp = fztmp = 0.0` carried out. -/
theorem ii_step_eq (EVFLAG EFLAG NEWTON_PAIR : Bool) (env : PairEnv K T) (p : PairBeck K)
    (st : EvalState K T) (ii : Nat) :
    ii_step EVFLAG EFLAG NEWTON_PAIR env p st ii =
      (List.range (env.list.numneigh (env.list.ilist ii))).foldl
        (fun s jj => neigh_step EVFLAG EFLAG NEWTON_PAIR env p (env.list.ilist ii) s
          (env.list.firstneigh (env.list.ilist ii) jj)) st := by
  simp only [ii_step, update_add_zero]

/-- With the reaction applied to every neighbor, one iteration of the atom
loop keeps the sum of component `k` of the forces of the first `N` atoms. -/
theorem ii_step_sum (EVFLAG EFLAG : Bool) (env : PairEnv K T) (p : PairBeck K)
    (N : Nat) (st : EvalState K T) (ii : Nat) (k : Fin 3)
    (hi : env.list.ilist ii < N)
    (hj : ∀ jj, jj < env.list.numneigh (env.list.ilist ii) →
      env.list.firstneigh (env.list.ilist ii) jj &&& env.NEIGHMASK < N) :
    ∑ a in Finset.range N, (ii_step EVFLAG EFLAG true env p st ii).f a k =
      ∑ a in Finset.range N, st.f a k := by
  rw [ii_step_eq]
  refine foldl_keeps
    (fun s : EvalState K T => ∑ a in Finset.range N, s.f a k = ∑ a in Finset.range N, st.f a k)
    _ _ st rfl ?_
  intro s jj hjj hs
  rw [neigh_step_sum EVFLAG EFLAG env p _ N s _ k hi (hj jj (List.mem_range.mp hjj))]
  exact hs

/-- Without `NEWTON_PAIR`, one iteration of the atom loop for an owned atom
leaves the forces of the ghost atoms as they are. -/
theorem ii_step_ghost (EVFLAG EFLAG : Bool) (env : PairEnv K T) (p : PairBeck K)
    (st : EvalState K T) (ii a : Nat) (hi : env.list.ilist ii < env.nlocal)
    (ha : env.nlocal ≤ a) :
    (ii_step EVFLAG EFLAG false env p st ii).f a = st.f a := by
  rw [ii_step_eq]
  have hai : a ≠ env.list.ilist ii := by omega
  refine foldl_keeps (fun s : EvalState K T => s.f a = st.f a) _ _ st rfl ?_
  intro s jj _ hs
  rw [neigh_step_f_ghost EVFLAG EFLAG env p _ s _ a hai ha]
  exact hs

/-- One iteration of the atom loop all of whose pairs lie outside the cutoff
leaves the state as it is. -/
theorem ii_step_outside (EVFLAG EFLAG NEWTON_PAIR : Bool) (env : PairEnv K T)
    (p : PairBeck K) (st : EvalState K T) (ii : Nat)
    (h : ∀ jj, jj < env.list.numneigh (env.list.ilist ii) →
      ¬ rsq env (env.list.ilist ii)
          (env.list.firstneigh (env.list.ilist ii) jj &&& env.NEIGHMASK) <
        p.cutsq (env.type (env.list.ilist ii))
          (env.type (env.list.firstneigh (env.list.ilist ii) jj &&& env.NEIGHMASK))) :
    ii_step EVFLAG EFLAG NEWTON_PAIR env p st ii = st := by
  rw [ii_step_eq]
  refine foldl_keeps (fun s : EvalState K T => s = st) _ _ st rfl ?_
  intro s jj hjj hs
  rw [neigh_step_outside EVFLAG EFLAG NEWTON_PAIR env p _ s _ (h jj (List.mem_range.mp hjj))]
  exact hs

/-- The indices visited by `for (ii = iifrom; ii < iito; ++ii)`. -/
theorem mem_ii_range {iifrom iito ii : Nat}
    (h : ii ∈ List.range' iifrom (iito - iifrom)) : iifrom ≤ ii ∧ ii < iito := by
  rw [List.mem_range'_1] at h
  omega

/-- The value of `force_beck` in terms of the distance `r`, when `sqrt`
returns `r` for the squared distance `r * r`. -/
theorem force_beck_eq (env : PairEnv K T) (p : PairBeck K) (itype jtype : Nat) (R r : K)
    (hR : R = r * r) (hsqrt : env.sqrt R = r) :
    force_beck env p itype jtype R =
      p.AA itype jtype
          * env.exp (-r * (p.alpha itype jtype + p.beta itype jtype * r ^ 5))
          * (p.alpha itype jtype + 6 * p.beta itype jtype * r ^ 5)
        - p.BB itype jtype * r * ((p.aa itype jtype ^ 2 + r ^ 2) ^ 5)⁻¹
          * (21672 / 1000 + 30 * p.aa itype jtype ^ 2 + 6 * r ^ 2) := by
  simp only [force_beck, hsqrt]
  subst hR
  have e1 : -1 * r * (p.alpha itype jtype + r * r * (r * r) * r * p.beta itype jtype) =
      -r * (p.alpha itype jtype + p.beta itype jtype * r ^ 5) := by ring
  have e2 : p.aa itype jtype * p.aa itype jtype + r * r = p.aa itype jtype ^ 2 + r ^ 2 := by
    ring
  rw [e1, e2]
  ring

/-- Within the cutoff and for a neighbor other than `i`, the body of the
neighbor loop adds `del * fpair` to `f[i]`. -/
theorem pair_step_f_i (EVFLAG EFLAG NEWTON_PAIR : Bool) (env : PairEnv K T)
    (p : PairBeck K) (i : Nat) (st : EvalState K T) (jtag : Nat)
    (hc : rsq env i (jtag &&& env.NEIGHMASK) <
      p.cutsq (env.type i) (env.type (jtag &&& env.NEIGHMASK)))
    (hne : jtag &&& env.NEIGHMASK ≠ i) (k : Fin 3) :
    (neigh_step EVFLAG EFLAG NEWTON_PAIR env p i st jtag).f i k =
      st.f i k + (env.x i k - env.x (jtag &&& env.NEIGHMASK) k) * fpair env p i jtag := by
  simp only [neigh_step, if_pos hc]
  by_cases hn : NEWTON_PAIR = true ∨ jtag &&& env.NEIGHMASK < env.nlocal
  · rw [if_pos hn, Function.update_noteq hne.symm, Function.update_same]
    fin_cases k <;> rfl
  · rw [if_neg hn, Function.update_same]
    fin_cases k <;> rfl

/-- The example `sqrt` at the squared distance of the atoms at heights `0`
and `2`. -/
theorem example_sqrt_four : Rat.sqrt 4 = 2 := by
  rw [show (4 : ℚ) = 2 * 2 by norm_num, Rat.sqrt_eq]
  norm_num

/-- Squared distance of the example atoms `0` and `1`. -/
theorem example_rsq_near (nlocal : Nat) (neigh : List Nat) :
    rsq (Example.pairEnv nlocal neigh) 0 1 = 4 := by
  norm_num [rsq, Example.pairEnv]

/-- Squared distance of the example atoms `0` and `2`. -/
theorem example_rsq_far (nlocal : Nat) (neigh : List Nat) :
    rsq (Example.pairEnv nlocal neigh) 0 2 = 25 := by
  norm_num [rsq, Example.pairEnv]

end PairBeckOMP

/-! ## Pairwise Beck kernel: claims -/

namespace PairBeckOMP

variable {T : Type}

/-- C17: with `NEWTON_PAIR = 1`, for a pair within the cutoff whose neighbor
`j` differs from `i`, the body of the neighbor loop adds to `f[i]` the vector
`del * fpair` and subtracts the same vector from `f[j]`.  Hence, when all
visited atoms and neighbors have an index below `N`, `eval` keeps the sum over
the first `N` atoms of each force component; starting from zeroed forces that
sum is `0`. -/
theorem newton_pair_forces_cancel (EVFLAG EFLAG : Bool) (env : PairEnv K T) (p : PairBeck K)
    (iifrom iito N : Nat) (f : Nat → Fin 3 → K) (thr : T)
    (hi : ∀ ii, iifrom ≤ ii → ii < iito → env.list.ilist ii < N)
    (hj : ∀ ii, iifrom ≤ ii → ii < iito → ∀ jj, jj < env.list.numneigh (env.list.ilist ii) →
      env.list.firstneigh (env.list.ilist ii) jj &&& env.NEIGHMASK < N) :
    (∀ (i : Nat) (st : EvalState K T) (jtag : Nat) (k : Fin 3),
      rsq env i (jtag &&& env.NEIGHMASK) <
        p.cutsq (env.type i) (env.type (jtag &&& env.NEIGHMASK)) →
      jtag &&& env.NEIGHMASK ≠ i →
      (neigh_step EVFLAG EFLAG true env p i st jtag).f i k =
        st.f i k + (env.x i k - env.x (jtag &&& env.NEIGHMASK) k) * fpair env p i jtag ∧
      (neigh_step EVFLAG EFLAG true env p i st jtag).f (jtag &&& env.NEIGHMASK) k =
        st.f (jtag &&& env.NEIGHMASK) k
          - (env.x i k - env.x (jtag &&& env.NEIGHMASK) k) * fpair env p i jtag) ∧
    (∀ k : Fin 3,
      ∑ a in Finset.range N, (eval EVFLAG EFLAG true iifrom iito env p f thr).f a k =
        ∑ a in Finset.range N, f a k) ∧
    ((∀ a k, f a k = 0) → ∀ k : Fin 3,
      ∑ a in Finset.range N, (eval EVFLAG EFLAG true iifrom iito env p f thr).f a k = 0) := by
  have hsum : ∀ k : Fin 3,
      ∑ a in Finset.range N, (eval EVFLAG EFLAG true iifrom iito env p f thr).f a k =
        ∑ a in Finset.range N, f a k := by
    intro k
    unfold eval
    refine foldl_keeps
      (fun s : EvalState K T => ∑ a in Finset.range N, s.f a k = ∑ a in Finset.range N, f a k)
      _ _ _ rfl ?_
    intro s ii hii hs
    obtain ⟨h1, h2⟩ := mem_ii_range hii
    rw [ii_step_sum EVFLAG EFLAG env p N s ii k (hi ii h1 h2) (hj ii h1 h2)]
    exact hs
  refine ⟨?_, hsum, ?_⟩
  · intro i st jtag k hc hne
    simp only [neigh_step, if_pos hc, true_or, if_true]
    constructor
    · rw [Function.update_noteq hne.symm, Function.update_same]
      fin_cases k <;> rfl
    · rw [Function.update_same, Function.update_noteq hne]
      fin_cases k <;> rfl
  · intro hz k
    rw [hsum k]
    simp [hz]

/-- Witness of C17: atom `0` with the owned neighbor `1` at distance `2`,
forces zeroed, summed over the three atoms. -/
theorem newton_pair_forces_cancel_witness :
    ∑ a in Finset.range 3,
      (eval true true true 0 1 (Example.pairEnv 2 [1]) Example.beck
        (fun _ => ![0, 0, 0]) []).f a 2 = 0 :=
  (newton_pair_forces_cancel true true (Example.pairEnv 2 [1]) Example.beck 0 1 3
    (fun _ => ![0, 0, 0]) []
    (by intro ii _ _; simp [Example.pairEnv])
    (by
      intro ii _ _ jj hjj
      have hjj0 : jj = 0 := by simpa [Example.pairEnv] using hjj
      subst hjj0
      simp [Example.pairEnv])).2.2
    (by intro a k; fin_cases k <;> rfl) 2

/-- C18: a pair whose squared distance is not below `cutsq[itype][jtype]` is
skipped by the body of the neighbor loop: forces, `evdwl` and the tally
accumulators stay as they are.  A pair below the cutoff is applied: when
`EVFLAG` is set the tally routine is called for it, and (for `j ≠ i`) the
vector `del * fpair` is added to `f[i]`.  In particular an `eval` all of whose
pairs lie outside the cutoff returns the forces and accumulators it was
given. -/
theorem pair_contributes_iff_within_cutoff (EVFLAG EFLAG NEWTON_PAIR : Bool)
    (env : PairEnv K T) (p : PairBeck K) (iifrom iito : Nat) (f : Nat → Fin 3 → K) (thr : T) :
    (∀ (i : Nat) (st : EvalState K T) (jtag : Nat),
      ¬ rsq env i (jtag &&& env.NEIGHMASK) <
        p.cutsq (env.type i) (env.type (jtag &&& env.NEIGHMASK)) →
      neigh_step EVFLAG EFLAG NEWTON_PAIR env p i st jtag = st) ∧
    (∀ (i : Nat) (st : EvalState K T) (jtag : Nat),
      rsq env i (jtag &&& env.NEIGHMASK) <
        p.cutsq (env.type i) (env.type (jtag &&& env.NEIGHMASK)) →
      (EVFLAG = true →
        (neigh_step EVFLAG EFLAG NEWTON_PAIR env p i st jtag).thr =
          env.ev_tally_thr st.thr i (jtag &&& env.NEIGHMASK) env.nlocal NEWTON_PAIR
            (neigh_step EVFLAG EFLAG NEWTON_PAIR env p i st jtag).evdwl 0 (fpair env p i jtag)
            (env.x i 0 - env.x (jtag &&& env.NEIGHMASK) 0)
            (env.x i 1 - env.x (jtag &&& env.NEIGHMASK) 1)
            (env.x i 2 - env.x (jtag &&& env.NEIGHMASK) 2)) ∧
      (jtag &&& env.NEIGHMASK ≠ i → ∀ k : Fin 3,
        (neigh_step EVFLAG EFLAG NEWTON_PAIR env p i st jtag).f i k =
          st.f i k + (env.x i k - env.x (jtag &&& env.NEIGHMASK) k) * fpair env p i jtag)) ∧
    ((∀ ii, iifrom ≤ ii → ii < iito → ∀ jj, jj < env.list.numneigh (env.list.ilist ii) →
        ¬ rsq env (env.list.ilist ii)
            (env.list.firstneigh (env.list.ilist ii) jj &&& env.NEIGHMASK) <
          p.cutsq (env.type (env.list.ilist ii))
            (env.type (env.list.firstneigh (env.list.ilist ii) jj &&& env.NEIGHMASK))) →
      eval EVFLAG EFLAG NEWTON_PAIR iifrom iito env p f thr =
        { f := f, evdwl := 0, thr := thr }) := by
  refine ⟨?_, ?_, ?_⟩
  · intro i st jtag h
    exact neigh_step_outside EVFLAG EFLAG NEWTON_PAIR env p i st jtag h
  · intro i st jtag hc
    constructor
    · intro hev
      simp only [neigh_step, if_pos hc, hev, if_true]
    · intro hne k
      exact pair_step_f_i EVFLAG EFLAG NEWTON_PAIR env p i st jtag hc hne k
  · intro h
    unfold eval
    refine foldl_keeps
      (fun s : EvalState K T => s = { f := f, evdwl := 0, thr := thr }) _ _ _ rfl ?_
    intro s ii hii hs
    obtain ⟨h1, h2⟩ := mem_ii_range hii
    rw [ii_step_outside EVFLAG EFLAG NEWTON_PAIR env p s ii (h ii h1 h2)]
    exact hs

/-- Witness of C18: atom `0` whose only neighbor, atom `2`, lies at squared
distance `25 ≥ cutsq = 9`. -/
theorem pair_contributes_iff_within_cutoff_witness :
    eval true true true 0 1 (Example.pairEnv 3 [2]) Example.beck (fun _ => ![0, 0, 0]) [] =
      { f := fun _ => ![0, 0, 0], evdwl := 0, thr := [] } :=
  (pair_contributes_iff_within_cutoff true true true (Example.pairEnv 3 [2]) Example.beck 0 1
    (fun _ => ![0, 0, 0]) []).2.2
    (by
      intro ii _ _ jj hjj
      have hjj0 : jj = 0 := by simpa [Example.pairEnv] using hjj
      subst hjj0
      have h2 : (Example.pairEnv 3 [2]).list.firstneigh
          ((Example.pairEnv 3 [2]).list.ilist ii) 0 &&& (Example.pairEnv 3 [2]).NEIGHMASK = 2 := by
        simp only [Example.pairEnv, List.getD_cons_zero]
        decide
      have h0 : (Example.pairEnv 3 [2]).list.ilist ii = 0 := rfl
      rw [h2, h0, example_rsq_far]
      norm_num [Example.beck])

/-- C19: for a neighbor `j ≠ i`, the body of the neighbor loop subtracts the
vector `del * fpair` from `f[j]` when the pair is within the cutoff and
`NEWTON_PAIR` is set or `j < nlocal`, and leaves `f[j]` as it is otherwise.
With `NEWTON_PAIR = 0`, an `eval` over owned atoms (`ilist[ii] < nlocal`)
leaves the force of every ghost atom (index `≥ nlocal`) as it is. -/
theorem reaction_iff_newton_or_owned (EVFLAG EFLAG NEWTON_PAIR : Bool)
    (env : PairEnv K T) (p : PairBeck K) (iifrom iito : Nat) (f : Nat → Fin 3 → K) (thr : T) :
    (∀ (i : Nat) (st : EvalState K T) (jtag : Nat), jtag &&& env.NEIGHMASK ≠ i →
      (rsq env i (jtag &&& env.NEIGHMASK) <
          p.cutsq (env.type i) (env.type (jtag &&& env.NEIGHMASK)) →
        (NEWTON_PAIR = true ∨ jtag &&& env.NEIGHMASK < env.nlocal) → ∀ k : Fin 3,
        (neigh_step EVFLAG EFLAG NEWTON_PAIR env p i st jtag).f (jtag &&& env.NEIGHMASK) k =
          st.f (jtag &&& env.NEIGHMASK) k
            - (env.x i k - env.x (jtag &&& env.NEIGHMASK) k) * fpair env p i jtag) ∧
      (¬ (NEWTON_PAIR = true ∨ jtag &&& env.NEIGHMASK < env.nlocal) →
        (neigh_step EVFLAG EFLAG NEWTON_PAIR env p i st jtag).f (jtag &&& env.NEIGHMASK) =
          st.f (jtag &&& env.NEIGHMASK))) ∧
    ((∀ ii, iifrom ≤ ii → ii < iito → env.list.ilist ii < env.nlocal) →
      ∀ a, env.nlocal ≤ a →
        (eval EVFLAG EFLAG false iifrom iito env p f thr).f a = f a) := by
  constructor
  · intro i st jtag hne
    constructor
    · intro hc hn k
      simp only [neigh_step, if_pos hc, if_pos hn]
      rw [Function.update_same, Function.update_noteq hne]
      fin_cases k <;> rfl
    · intro hn
      by_cases hc : rsq env i (jtag &&& env.NEIGHMASK) <
          p.cutsq (env.type i) (env.type (jtag &&& env.NEIGHMASK))
      · simp only [neigh_step, if_pos hc, if_neg hn]
        exact Function.update_noteq hne _ _
      · rw [neigh_step_outside EVFLAG EFLAG NEWTON_PAIR env p i st jtag hc]
  · intro hown a ha
    unfold eval
    refine foldl_keeps (fun s : EvalState K T => s.f a = f a) _ _ _ rfl ?_
    intro s ii hii hs
    obtain ⟨h1, h2⟩ := mem_ii_range hii
    rw [ii_step_ghost EVFLAG EFLAG env p s ii a (hown ii h1 h2) ha]
    exact hs

/-- Witness of C19: with `NEWTON_PAIR = 0`, atom `0` owned and its neighbor,
atom `1`, a ghost (`nlocal = 1`): the force of atom `1` is left as it is. -/
theorem reaction_iff_newton_or_owned_witness :
    (eval true true false 0 1 (Example.pairEnv 1 [1]) Example.beck
      (fun _ => ![0, 0, 0]) []).f 1 = ![0, 0, 0] :=
  (reaction_iff_newton_or_owned true true false (Example.pairEnv 1 [1]) Example.beck 0 1
    (fun _ => ![0, 0, 0]) []).2
    (by intro ii _ _; simp [Example.pairEnv]) 1 (by simp [Example.pairEnv])

/-- C20: for a pair within the cutoff at distance `r = sqrt(rsq) > 0` (with
`r * r = rsq`), `force_beck` is
`AA*exp(-r*(alpha + beta*r^5))*(alpha + 6*beta*r^5)
 - BB*r*(a^2 + r^2)^(-5)*(21.672 + 30*a^2 + 6*r^2)` with the coefficients at
`[itype][jtype]`, and the body of the neighbor loop adds to component `k` of
`f[i]` the value `d_k * factor * force_beck / r`, where `d = x[i] - x[j]` and
`factor = special_lj[sbmask(j)]`; the addition is `0` when the factor is `0`. -/
theorem beck_force_on_i (EVFLAG EFLAG NEWTON_PAIR : Bool) (env : PairEnv K T)
    (p : PairBeck K) (i : Nat) (st : EvalState K T) (jtag : Nat)
    (hc : rsq env i (jtag &&& env.NEIGHMASK) <
      p.cutsq (env.type i) (env.type (jtag &&& env.NEIGHMASK)))
    (hs : env.sqrt (rsq env i (jtag &&& env.NEIGHMASK))
        * env.sqrt (rsq env i (jtag &&& env.NEIGHMASK)) = rsq env i (jtag &&& env.NEIGHMASK))
    (hr : 0 < env.sqrt (rsq env i (jtag &&& env.NEIGHMASK))) :
    force_beck env p (env.type i) (env.type (jtag &&& env.NEIGHMASK))
        (rsq env i (jtag &&& env.NEIGHMASK)) =
      p.AA (env.type i) (env.type (jtag &&& env.NEIGHMASK))
          * env.exp (-env.sqrt (rsq env i (jtag &&& env.NEIGHMASK))
              * (p.alpha (env.type i) (env.type (jtag &&& env.NEIGHMASK))
                + p.beta (env.type i) (env.type (jtag &&& env.NEIGHMASK))
                  * env.sqrt (rsq env i (jtag &&& env.NEIGHMASK)) ^ 5))
          * (p.alpha (env.type i) (env.type (jtag &&& env.NEIGHMASK))
              + 6 * p.beta (env.type i) (env.type (jtag &&& env.NEIGHMASK))
                * env.sqrt (rsq env i (jtag &&& env.NEIGHMASK)) ^ 5)
        - p.BB (env.type i) (env.type (jtag &&& env.NEIGHMASK))
          * env.sqrt (rsq env i (jtag &&& env.NEIGHMASK))
          * ((p.aa (env.type i) (env.type (jtag &&& env.NEIGHMASK)) ^ 2
              + env.sqrt (rsq env i (jtag &&& env.NEIGHMASK)) ^ 2) ^ 5)⁻¹
          * (21672 / 1000 + 30 * p.aa (env.type i) (env.type (jtag &&& env.NEIGHMASK)) ^ 2
              + 6 * env.sqrt (rsq env i (jtag &&& env.NEIGHMASK)) ^ 2) ∧
    (∀ k : Fin 3,
      (neigh_step EVFLAG EFLAG NEWTON_PAIR env p i st jtag).f i k =
        st.f i k + (env.x i k - env.x (jtag &&& env.NEIGHMASK) k)
          * env.special_lj (env.sbmask jtag)
          * force_beck env p (env.type i) (env.type (jtag &&& env.NEIGHMASK))
              (rsq env i (jtag &&& env.NEIGHMASK))
          / env.sqrt (rsq env i (jtag &&& env.NEIGHMASK))) ∧
    (env.special_lj (env.sbmask jtag) = 0 →
      (neigh_step EVFLAG EFLAG NEWTON_PAIR env p i st jtag).f i = st.f i) := by
  have hne : jtag &&& env.NEIGHMASK ≠ i := by
    intro h
    have h0 : rsq env i (jtag &&& env.NEIGHMASK) = 0 := by
      rw [h]
      simp [rsq]
    rw [h0] at hs
    have : env.sqrt (rsq env i (jtag &&& env.NEIGHMASK)) = 0 := by
      rw [h0]
      exact mul_self_eq_zero.mp hs
    exact absurd this (ne_of_gt hr)
  have hfi : ∀ k : Fin 3,
      (neigh_step EVFLAG EFLAG NEWTON_PAIR env p i st jtag).f i k =
        st.f i k + (env.x i k - env.x (jtag &&& env.NEIGHMASK) k) * fpair env p i jtag :=
    fun k => ((pair_step_f_i EVFLAG EFLAG NEWTON_PAIR env p i st jtag hc hne) k)
  refine ⟨force_beck_eq env p _ _ _ _ hs.symm rfl, ?_, ?_⟩
  · intro k
    rw [hfi k]
    simp only [fpair]
    ring
  · intro h0
    funext k
    rw [hfi k]
    simp [fpair, h0]

/-- Witness of C20: atom `0` and its neighbor `1` at distance `2`, entered in
the neighbor list with exclusion class `1`, whose factor is `0`: the force of
atom `0` is left as it is. -/
theorem beck_force_on_i_witness :
    (neigh_step true true true (Example.pairEnv 2 [1073741825]) Example.beck 0
      { f := fun _ => ![0, 0, 0], evdwl := 0, thr := [] } 1073741825).f 0 = ![0, 0, 0] :=
  (beck_force_on_i true true true (Example.pairEnv 2 [1073741825]) Example.beck 0
    { f := fun _ => ![0, 0, 0], evdwl := 0, thr := [] } 1073741825
    (by
      have h1 : 1073741825 &&& (Example.pairEnv 2 [1073741825]).NEIGHMASK = 1 := by
        simp only [Example.pairEnv]
        decide
      rw [h1, example_rsq_near]
      norm_num [Example.beck])
    (by
      have h1 : 1073741825 &&& (Example.pairEnv 2 [1073741825]).NEIGHMASK = 1 := by
        simp only [Example.pairEnv]
        decide
      rw [h1, example_rsq_near]
      have hs : (Example.pairEnv 2 [1073741825]).sqrt 4 = 2 := example_sqrt_four
      rw [hs]
      norm_num)
    (by
      have h1 : 1073741825 &&& (Example.pairEnv 2 [1073741825]).NEIGHMASK = 1 := by
        simp only [Example.pairEnv]
        decide
      rw [h1, example_rsq_near]
      have hs : (Example.pairEnv 2 [1073741825]).sqrt 4 = 2 := example_sqrt_four
      rw [hs]
      norm_num)).2.2
    (by simp [Example.pairEnv])

end PairBeckOMP

/-! ## STL mesh reader: auxiliary lemmas -/

namespace InputMeshTri

variable {R : Type}

theorem stl_line_of_error (atof : String → R) (st : StlState R) (arg : List String)
    (h : st.error ≠ none) : stl_line atof st arg = st := by
  unfold stl_line
  rw [if_pos h]

theorem foldl_of_error (atof : String → R) (lines : List (List String)) (st : StlState R)
    (h : st.error ≠ none) : lines.foldl (stl_line atof) st = st := by
  induction lines with
  | nil => rfl
  | cons l ls ih => rw [List.foldl_cons, stl_line_of_error atof st l h, ih]

theorem foldl_prefix_ok (atof : String → R) (ls ls' : List (List String)) (st : StlState R)
    (h : ((ls ++ ls').foldl (stl_line atof) st).error = none) :
    (ls.foldl (stl_line atof) st).error = none := by
  by_contra hne
  rw [List.foldl_append, foldl_of_error atof ls' _ hne] at h
  exact hne h

theorem open_after_snoc (opener closer : String) (pre : List (List String))
    (l : List String) :
    open_after opener closer (pre ++ [l]) =
      (if l.head? = some opener then true
        else if l.head? = some closer then false else open_after opener closer pre) := by
  simp [open_after, List.foldl_append]

theorem facet_block (atof : String → R) (st : StlState R) (fc : StlFacet)
    (he : st.error = none) (hs : st.insideSolidObject = true)
    (hf : st.insideFacet = false) (hl : st.insideOuterLoop = false) :
    ((facet_lines fc).foldl (stl_line atof) st).error = none ∧
    ((facet_lines fc).foldl (stl_line atof) st).insideSolidObject = true ∧
    ((facet_lines fc).foldl (stl_line atof) st).insideFacet = false ∧
    ((facet_lines fc).foldl (stl_line atof) st).insideOuterLoop = false ∧
    ((facet_lines fc).foldl (stl_line atof) st).triangles =
      st.triangles ++ [(point atof fc.v0, point atof fc.v1, point atof fc.v2)] := by
  simp [facet_lines, stl_line, fail, he, hs, hf, hl, point, Function.update]

theorem facets_fold (atof : String → R) (facets : List StlFacet) :
    ∀ st : StlState R, st.error = none → st.insideSolidObject = true →
      st.insideFacet = false → st.insideOuterLoop = false →
      ((facets.flatMap facet_lines).foldl (stl_line atof) st).error = none ∧
      ((facets.flatMap facet_lines).foldl (stl_line atof) st).insideSolidObject = true ∧
      ((facets.flatMap facet_lines).foldl (stl_line atof) st).insideFacet = false ∧
      ((facets.flatMap facet_lines).foldl (stl_line atof) st).insideOuterLoop = false ∧
      ((facets.flatMap facet_lines).foldl (stl_line atof) st).triangles =
        st.triangles ++
          facets.map (fun fc => (point atof fc.v0, point atof fc.v1, point atof fc.v2)) := by
  induction facets with
  | nil => intro st he hs hf hl; simp [he, hs, hf, hl]
  | cons fc fcs ih =>
    intro st he hs hf hl
    obtain ⟨he1, hs1, hf1, hl1, ht1⟩ := facet_block atof st fc he hs hf hl
    obtain ⟨he2, hs2, hf2, hl2, ht2⟩ := ih _ he1 hs1 hf1 hl1
    rw [List.flatMap_cons, List.foldl_append]
    refine ⟨he2, hs2, hf2, hl2, ?_⟩
    rw [ht2, ht1, List.map_cons, List.append_assoc, List.singleton_append]

theorem stl_line_flags (atof : String → R) (st : StlState R) (l : List String)
    (h : (stl_line atof st l).error = none) :
    (stl_line atof st l).insideFacet =
      (if l.head? = some "facet" then true
        else if l.head? = some "endfacet" then false else st.insideFacet) ∧
    (stl_line atof st l).insideOuterLoop =
      (if l.head? = some "outer" then true
        else if l.head? = some "endloop" then false else st.insideOuterLoop) := by
  cases l with
  | nil => simp [stl_line]
  | cons a t =>
    by_cases he : st.error ≠ none
    · rw [stl_line_of_error _ _ _ he] at h
      exact absurd h he
    have hlen : ¬ (a :: t).length = 0 := by simp
    unfold stl_line at h ⊢
    rw [if_neg he, if_neg hlen, List.getD_cons_zero] at h ⊢
    simp only [List.head?_cons, Option.some.injEq]
    by_cases h0 : a = "solid"
    · subst h0
      rw [if_pos rfl] at h
      rw [if_pos rfl]
      split_ifs at h ⊢ <;> simp_all [fail]
    by_cases h1 : a = "endsolid"
    · subst h1
      rw [if_neg (by decide : ¬ ("endsolid" = "solid")), if_pos rfl] at h
      rw [if_neg (by decide : ¬ ("endsolid" = "solid")), if_pos rfl]
      split_ifs at h ⊢ <;> simp_all [fail]
    by_cases h2 : a = "facet"
    · subst h2
      rw [if_neg (by decide : ¬ ("facet" = "solid")), if_neg (by decide : ¬ ("facet" = "endsolid")), if_pos rfl] at h
      rw [if_neg (by decide : ¬ ("facet" = "solid")), if_neg (by decide : ¬ ("facet" = "endsolid")), if_pos rfl]
      split_ifs at h ⊢ <;> simp_all [fail]
    by_cases h3 : a = "endfacet"
    · subst h3
      rw [if_neg (by decide : ¬ ("endfacet" = "solid")), if_neg (by decide : ¬ ("endfacet" = "endsolid")), if_neg (by decide : ¬ ("endfacet" = "facet")), if_pos rfl] at h
      rw [if_neg (by decide : ¬ ("endfacet" = "solid")), if_neg (by decide : ¬ ("endfacet" = "endsolid")), if_neg (by decide : ¬ ("endfacet" = "facet")), if_pos rfl]
      split_ifs at h ⊢ <;> simp_all [fail]
    by_cases h4 : a = "outer"
    · subst h4
      rw [if_neg (by decide : ¬ ("outer" = "solid")), if_neg (by decide : ¬ ("outer" = "endsolid")), if_neg (by decide : ¬ ("outer" = "facet")), if_neg (by decide : ¬ ("outer" = "endfacet")), if_pos rfl] at h
      rw [if_neg (by decide : ¬ ("outer" = "solid")), if_neg (by decide : ¬ ("outer" = "endsolid")), if_neg (by decide : ¬ ("outer" = "facet")), if_neg (by decide : ¬ ("outer" = "endfacet")), if_pos rfl]
      split_ifs at h ⊢ <;> simp_all [fail]
    by_cases h5 : a = "endloop"
    · subst h5
      rw [if_neg (by decide : ¬ ("endloop" = "solid")), if_neg (by decide : ¬ ("endloop" = "endsolid")), if_neg (by decide : ¬ ("endloop" = "facet")), if_neg (by decide : ¬ ("endloop" = "endfacet")), if_neg (by decide : ¬ ("endloop" = "outer")), if_pos rfl] at h
      rw [if_neg (by decide : ¬ ("endloop" = "solid")), if_neg (by decide : ¬ ("endloop" = "endsolid")), if_neg (by decide : ¬ ("endloop" = "facet")), if_neg (by decide : ¬ ("endloop" = "endfacet")), if_neg (by decide : ¬ ("endloop" = "outer")), if_pos rfl]
      split_ifs at h ⊢ <;> simp_all [fail]
    by_cases h6 : a = "vertex"
    · subst h6
      rw [if_neg (by decide : ¬ ("vertex" = "solid")), if_neg (by decide : ¬ ("vertex" = "endsolid")), if_neg (by decide : ¬ ("vertex" = "facet")), if_neg (by decide : ¬ ("vertex" = "endfacet")), if_neg (by decide : ¬ ("vertex" = "outer")), if_neg (by decide : ¬ ("vertex" = "endloop")), if_pos rfl] at h
      rw [if_neg (by decide : ¬ ("vertex" = "solid")), if_neg (by decide : ¬ ("vertex" = "endsolid")), if_neg (by decide : ¬ ("vertex" = "facet")), if_neg (by decide : ¬ ("vertex" = "endfacet")), if_neg (by decide : ¬ ("vertex" = "outer")), if_neg (by decide : ¬ ("vertex" = "endloop")), if_pos rfl]
      split_ifs at h ⊢ <;> simp_all [fail]
    rw [if_neg h0, if_neg h1, if_neg h2, if_neg h3, if_neg h4, if_neg h5, if_neg h6]
    simp [h2, h3, h4, h5]

theorem flags_track_lines (atof : String → R) (uninit : Nat → Fin 3 → R)
    (pre : List (List String)) :
    (meshtrifile_stl atof uninit pre).error = none →
      (meshtrifile_stl atof uninit pre).insideFacet = open_after "facet" "endfacet" pre ∧
      (meshtrifile_stl atof uninit pre).insideOuterLoop = open_after "outer" "endloop" pre := by
  induction pre using List.reverseRecOn with
  | nil => intro _; exact ⟨rfl, rfl⟩
  | append_singleton pre l ih =>
    intro h
    have hpre : (meshtrifile_stl atof uninit pre).error = none :=
      foldl_prefix_ok atof pre [l] _ h
    obtain ⟨h1, h2⟩ := ih hpre
    have hrun : meshtrifile_stl atof uninit (pre ++ [l]) =
        stl_line atof (meshtrifile_stl atof uninit pre) l := by
      simp [meshtrifile_stl, List.foldl_append]
    rw [hrun] at h ⊢
    obtain ⟨g1, g2⟩ := stl_line_flags atof _ l h
    rw [g1, g2, h1, h2, open_after_snoc, open_after_snoc]
    exact ⟨rfl, rfl⟩

end InputMeshTri

/-! ## STL mesh reader: claims -/

namespace InputMeshTri

variable {R : Type}

/-- C21: On a well formed ASCII STL input, `solid`, then `k ≥ 0` facets of the
form `facet normal` / `outer loop` / three `vertex` lines / `endloop` /
`endfacet`, then `endsolid`, the reader raises no error and calls
`addTriangle` once per facet, in order, the call for a facet receiving the
points of its three `vertex` lines in their order. -/
theorem well_formed_stl_triangles (atof : String → R) (uninit : Nat → Fin 3 → R)
    (name : List String) (facets : List StlFacet) :
    (meshtrifile_stl atof uninit (well_formed_input name facets)).error = none ∧
    (meshtrifile_stl atof uninit (well_formed_input name facets)).triangles =
      facets.map (fun fc => (point atof fc.v0, point atof fc.v1, point atof fc.v2)) ∧
    (meshtrifile_stl atof uninit (well_formed_input name facets)).triangles.length =
      facets.length := by
  have hrun : meshtrifile_stl atof uninit (well_formed_input name facets) =
      stl_line atof
        ((facets.flatMap facet_lines).foldl (stl_line atof)
          (stl_line atof (stl_start uninit) ("solid" :: name)))
        ("endsolid" :: name) := by
    simp [meshtrifile_stl, well_formed_input, List.foldl_append]
  have h0 : stl_line atof (stl_start uninit) ("solid" :: name) =
      { stl_start uninit with insideSolidObject := true } := by
    simp [stl_line, stl_start]
  obtain ⟨he, hs, _, _, ht⟩ := facets_fold atof facets
    { stl_start uninit with insideSolidObject := true } rfl rfl rfl rfl
  rw [hrun, h0]
  have hend : ∀ st : StlState R, st.error = none → st.insideSolidObject = true →
      (stl_line atof st ("endsolid" :: name)).error = none ∧
      (stl_line atof st ("endsolid" :: name)).triangles = st.triangles := by
    intro st h1 h2
    simp [stl_line, h1, h2]
  obtain ⟨g1, g2⟩ := hend _ he hs
  refine ⟨g1, ?_, ?_⟩
  · rw [g2, ht]
    simp [stl_start]
  · rw [g2, ht]
    simp [stl_start]

/-- C22: The reader raises a fatal error on every input in which a `facet`
line comes while the last facet begun has not been closed by `endfacet`, and
on every input in which a `vertex` line comes while no outer loop is open
(none was begun, or the last one was ended by `endloop`). -/
theorem facet_or_vertex_out_of_place_rejected (atof : String → R)
    (uninit : Nat → Fin 3 → R) (pre : List (List String)) (l : List String)
    (post : List (List String))
    (h : (l.head? = some "facet" ∧ open_after "facet" "endfacet" pre = true) ∨
         (l.head? = some "vertex" ∧ open_after "outer" "endloop" pre = false)) :
    (meshtrifile_stl atof uninit (pre ++ l :: post)).error ≠ none := by
  intro hall
  have hsplit : pre ++ l :: post = (pre ++ [l]) ++ post := by simp
  have hl : (meshtrifile_stl atof uninit (pre ++ [l])).error = none := by
    rw [hsplit] at hall
    exact foldl_prefix_ok atof (pre ++ [l]) post _ hall
  have hpre : (meshtrifile_stl atof uninit pre).error = none :=
    foldl_prefix_ok atof pre [l] _ hl
  obtain ⟨hf, ho⟩ := flags_track_lines atof uninit pre hpre
  have hrun : meshtrifile_stl atof uninit (pre ++ [l]) =
      stl_line atof (meshtrifile_stl atof uninit pre) l := by
    simp [meshtrifile_stl, List.foldl_append]
  rw [hrun] at hl
  cases l with
  | nil => rcases h with ⟨h, _⟩ | ⟨h, _⟩ <;> simp at h
  | cons a t =>
    rcases h with ⟨h, hopen⟩ | ⟨h, hopen⟩
    · have ha : a = "facet" := by simpa using h
      subst ha
      rw [hopen] at hf
      simp [stl_line, hpre, hf, fail] at hl
    · have ha : a = "vertex" := by simpa using h
      subst ha
      rw [hopen] at ho
      simp [stl_line, hpre, ho, fail] at hl

/-- Witness for C22: a second `facet` line before `endfacet`, and a `vertex`
line before any `outer` line. -/
theorem facet_or_vertex_out_of_place_rejected_witness :
    (meshtrifile_stl Example.atof Example.uninit
      ([["solid", "part"], ["facet", "normal", "0", "0", "1"]] ++
        ["facet", "normal", "0", "0", "1"] :: [["endsolid", "part"]])).error ≠ none ∧
    (meshtrifile_stl Example.atof Example.uninit
      ([["solid", "part"], ["facet", "normal", "0", "0", "1"]] ++
        ["vertex", "0", "0", "0"] :: [["endsolid", "part"]])).error ≠ none :=
  ⟨facet_or_vertex_out_of_place_rejected Example.atof Example.uninit _ _ _
      (Or.inl ⟨rfl, by simp [open_after]⟩),
   facet_or_vertex_out_of_place_rejected Example.atof Example.uninit _ _ _
      (Or.inr ⟨rfl, by simp [open_after]⟩)⟩

/-- C23, counterexample: a file that ends inside an outer loop (and so inside
its facet and its solid) is read without error, and so is a file whose facet
is ended by `endfacet` while the outer loop is still open, which yields a
triangle. -/
theorem unterminated_blocks_accepted :
    (meshtrifile_stl Example.atof Example.uninit Example.stl_cut_in_loop).error = none ∧
    (meshtrifile_stl Example.atof Example.uninit Example.stl_cut_in_loop).insideSolidObject
      = true ∧
    (meshtrifile_stl Example.atof Example.uninit Example.stl_cut_in_loop).insideFacet
      = true ∧
    (meshtrifile_stl Example.atof Example.uninit Example.stl_cut_in_loop).insideOuterLoop
      = true ∧
    (meshtrifile_stl Example.atof Example.uninit Example.stl_open_loop).error = none ∧
    (meshtrifile_stl Example.atof Example.uninit Example.stl_open_loop).triangles.length
      = 1 := by
  simp [meshtrifile_stl, stl_start, stl_line, fail, Example.stl_cut_in_loop,
    Example.stl_open_loop]

/-- C23, amended: the reader makes no check at the end of the file, so an
input cut after any line of an accepted input is accepted; and an `endfacet`
line is accepted whenever a facet is open and the vertex counter is three,
whether or not the outer loop has been ended, and adds the triangle of the
three stored vertices. -/
theorem stl_cut_input_accepted (atof : String → R) (uninit : Nat → Fin 3 → R)
    (ls ls' : List (List String))
    (h : (meshtrifile_stl atof uninit (ls ++ ls')).error = none) :
    (meshtrifile_stl atof uninit ls).error = none ∧
    ∀ rest : List String,
      (meshtrifile_stl atof uninit ls).insideFacet = true →
      (meshtrifile_stl atof uninit ls).iVertex = 3 →
      (meshtrifile_stl atof uninit (ls ++ [("endfacet" :: rest)])).error = none ∧
      (meshtrifile_stl atof uninit (ls ++ [("endfacet" :: rest)])).triangles =
        (meshtrifile_stl atof uninit ls).triangles ++
          [((meshtrifile_stl atof uninit ls).vertices 0,
            (meshtrifile_stl atof uninit ls).vertices 1,
            (meshtrifile_stl atof uninit ls).vertices 2)] := by
  have hls : (meshtrifile_stl atof uninit ls).error = none :=
    foldl_prefix_ok atof ls ls' _ h
  refine ⟨hls, ?_⟩
  intro rest hf hv
  have hrun : meshtrifile_stl atof uninit (ls ++ [("endfacet" :: rest)]) =
      stl_line atof (meshtrifile_stl atof uninit ls) ("endfacet" :: rest) := by
    simp [meshtrifile_stl, List.foldl_append]
  rw [hrun]
  simp [stl_line, hls, hf, hv]

/-- Witness for the amended C23: the accepted file `stl_open_loop`, cut before
its `endfacet` line. -/
theorem stl_cut_input_accepted_witness :
    (meshtrifile_stl Example.atof Example.uninit
      (Example.stl_open_loop.take 6 ++ Example.stl_open_loop.drop 6)).error = none ∧
    (meshtrifile_stl Example.atof Example.uninit (Example.stl_open_loop.take 6)).error
      = none :=
  ⟨by simp [meshtrifile_stl, stl_start, stl_line, fail, Example.stl_open_loop],
   (stl_cut_input_accepted Example.atof Example.uninit
      (Example.stl_open_loop.take 6) (Example.stl_open_loop.drop 6)
      (by simp [meshtrifile_stl, stl_start, stl_line, fail, Example.stl_open_loop])).1⟩

/-- C24, evaluation at the failing input: in `stl_empty_facet` the second facet
has no `vertex` line, yet the reader raises no error and calls `addTriangle`
twice, the second time with the vertices of the first facet again. -/
theorem facet_without_vertices_emits_triangle :
    (meshtrifile_stl Example.atof Example.uninit Example.stl_empty_facet).error = none ∧
    (meshtrifile_stl Example.atof Example.uninit Example.stl_empty_facet).triangles =
      [(point Example.atof Example.stl_tri.v0, point Example.atof Example.stl_tri.v1,
          point Example.atof Example.stl_tri.v2),
       (point Example.atof Example.stl_tri.v0, point Example.atof Example.stl_tri.v1,
          point Example.atof Example.stl_tri.v2)] := by
  simp [meshtrifile_stl, stl_start, stl_line, fail, Example.stl_empty_facet,
    Example.stl_tri, point, Function.update]

/-- C30, evaluation at the failing input: on `stl_four_vertices` the fourth
`vertex` line is stored at row 3 of `vertices`, which held the mark of a
never written entry before, and only then is the error raised. -/
theorem fourth_vertex_stored_at_row_three :
    (meshtrifile_stl Example.atof Example.uninit Example.stl_four_vertices).error =
      some "Corrupt or unknown STL file: Can not have more than 3 vertices in a facet (only triangular meshes supported)." ∧
    (meshtrifile_stl Example.atof Example.uninit Example.stl_four_vertices).vertices 3 =
      ![2, 2, 2] ∧
    (meshtrifile_stl Example.atof Example.uninit
      (Example.stl_four_vertices.take 6)).vertices 3 = ![-1, -1, -1] ∧
    (meshtrifile_stl Example.atof Example.uninit
      (Example.stl_four_vertices.take 6)).error = none := by
  refine ⟨?_, ?_, ?_, ?_⟩
  · simp [meshtrifile_stl, stl_start, stl_line, fail, Example.stl_four_vertices]
  · simp [meshtrifile_stl, stl_start, stl_line, fail, Example.stl_four_vertices,
      Function.update, Example.atof, Example.numeric]
  · funext k
    fin_cases k <;>
      simp [meshtrifile_stl, stl_start, stl_line, fail, Example.stl_four_vertices,
        Function.update, Example.uninit]
  · simp [meshtrifile_stl, stl_start, stl_line, fail, Example.stl_four_vertices]

end InputMeshTri

/-! ## Wall pass: which forces change, and the order of the contacts -/

namespace FixWallRegion

/-- An atom that is outside the group, fails `region->match` or has no
contact leaves the force array as it is. -/
theorem atom_step_f_skip (m : Libm K) (region : Region K) (atom : Atom K)
    (st : PassState K) (i : Nat)
    (h : ¬ (atom.mask i &&& st.fix.groupbit ≠ 0 ∧
        region.match_ (atom.x i 0) (atom.x i 1) (atom.x i 2) = true ∧
        region.surface (atom.x i 0) (atom.x i 1) (atom.x i 2) st.fix.cutoff ≠ [])) :
    (atom_step m region atom st i).f = st.f := by
  unfold atom_step
  split_ifs with h1 h2
  · rfl
  · have h3 : region.match_ (atom.x i 0) (atom.x i 1) (atom.x i 2) = true := by
      simpa using h2
    have h4 : region.surface (atom.x i 0) (atom.x i 1) (atom.x i 2) st.fix.cutoff = [] := by
      by_contra hne
      exact h ⟨h1, h3, hne⟩
    rw [h4]
    rfl
  · rfl

/-- The atom loop over `l` leaves `f[i]` as it is unless `i` is in `l`, in the
group, matched by the region and has a contact. -/
theorem atom_fold_f_skip (m : Libm K) (region : Region K) (atom : Atom K) (i : Nat)
    (l : List Nat) (st : PassState K)
    (h : ¬ (i ∈ l ∧ atom.mask i &&& st.fix.groupbit ≠ 0 ∧
        region.match_ (atom.x i 0) (atom.x i 1) (atom.x i 2) = true ∧
        region.surface (atom.x i 0) (atom.x i 1) (atom.x i 2) st.fix.cutoff ≠ [])) :
    (l.foldl (atom_step m region atom) st).f i = st.f i := by
  induction l generalizing st with
  | nil => rfl
  | cons j l ih =>
    obtain ⟨g1, g2, -, g4⟩ := atom_step_frame m region atom st j
    rw [List.foldl_cons, ih (atom_step m region atom st j)]
    · by_cases hj : i = j
      · subst hj
        rw [atom_step_f_skip m region atom st i]
        intro hc
        exact h ⟨List.mem_cons_self _ _, hc⟩
      · exact g4 i hj
    · rw [g1, g2]
      intro hc
      exact h ⟨List.mem_cons_of_mem _ hc.1, hc.2⟩

/-- C25: a pass of `post_force` changes `f[i]` only for an owned atom
(`i < nlocal`) of the fix group that passes `region->match` and has at least
one surface contact within the cutoff; the force on every other atom is left
as it was.  The positions `atom->x` are only read: the pass returns the fix,
the force array and the error, and no position array. -/
theorem post_force_changes_only_contacted (m : Libm K) (region : Region K) (atom : Atom K)
    (self : FixWallRegion K) (i : Nat)
    (h : (post_force m region atom self).f i ≠ atom.f i) :
    i < atom.nlocal ∧ atom.mask i &&& self.groupbit ≠ 0 ∧
      region.match_ (atom.x i 0) (atom.x i 1) (atom.x i 2) = true ∧
      region.surface (atom.x i 0) (atom.x i 1) (atom.x i 2) self.cutoff ≠ [] := by
  by_contra hc
  apply h
  have := atom_fold_f_skip m region atom i (List.range atom.nlocal)
    { fix := { self with eflag := 0, ewall := ![0, 0, 0, 0] }, f := atom.f, onflag := 0 }
    (by
      intro hh
      exact hc ⟨List.mem_range.mp hh.1, hh.2⟩)
  simpa [post_force] using this

/-- Witness of C25: one atom at height `1` above the harmonic example wall,
whose force changes. -/
theorem post_force_changes_only_contacted_witness :
    0 < (Example.atomsOnAxis [1] [0] [1]).nlocal ∧
    (Example.atomsOnAxis [1] [0] [1]).mask 0 &&& Example.harmonicFix.groupbit ≠ 0 ∧
    Example.halfSpace.match_ ((Example.atomsOnAxis [1] [0] [1]).x 0 0)
      ((Example.atomsOnAxis [1] [0] [1]).x 0 1) ((Example.atomsOnAxis [1] [0] [1]).x 0 2)
      = true ∧
    Example.halfSpace.surface ((Example.atomsOnAxis [1] [0] [1]).x 0 0)
      ((Example.atomsOnAxis [1] [0] [1]).x 0 1) ((Example.atomsOnAxis [1] [0] [1]).x 0 2)
      Example.harmonicFix.cutoff ≠ [] :=
  post_force_changes_only_contacted Example.libm Example.halfSpace
    (Example.atomsOnAxis [1] [0] [1]) Example.harmonicFix 0
    (by
      intro h
      have h2 := congrFun h 2
      norm_num [post_force, atom_step, contact_step, contact_fwall, style_law_of_harmonic,
        harmonic, Example.atomsOnAxis, Example.halfSpace, Example.harmonicFix, Example.wall,
        List.range_succ] at h2)

/-- C26, evaluation at the failing input: on the harmonic example wall whose
member `eng` holds `e` before the pass (left there by the constructor or by
an earlier pass), atom A (height `1`, radius `0`) and atom B (height `1/2`,
radius `1`, so its contact has `r ≤ radius`) give `ewall[0] = 2` when A is
processed before B and `ewall[0] = 1 + e` when B is processed before A: the
contact of B adds the energy of whichever contact was evaluated last. -/
theorem wall_energy_depends_on_order (e : ℚ) :
    (post_force Example.libm Example.halfSpace
      (Example.atomsOnAxis [1, 1 / 2] [0, 1] [1, 1]) (Example.harmonicFixEng e)).fix.ewall 0
      = 2 ∧
    (post_force Example.libm Example.halfSpace
      (Example.atomsOnAxis [1 / 2, 1] [1, 0] [1, 1]) (Example.harmonicFixEng e)).fix.ewall 0
      = 1 + e ∧
    (post_force Example.libm Example.halfSpace
      (Example.atomsOnAxis [1 / 2, 1] [1, 0] [1, 1]) (Example.harmonicFixEng e)).error = none ∧
    (post_force Example.libm Example.halfSpace
      (Example.atomsOnAxis [1, 1 / 2] [0, 1] [1, 1]) (Example.harmonicFixEng e)).error = none
    := by
  refine ⟨?_, ?_, ?_, ?_⟩
  · norm_num [post_force, atom_step, contact_step, contact_fwall, style_law_of_harmonic,
      harmonic, Example.atomsOnAxis, Example.halfSpace, Example.harmonicFixEng,
      Example.wall, List.range_succ]
  · norm_num [post_force, atom_step, contact_step, contact_fwall, style_law_of_harmonic,
      harmonic, Example.atomsOnAxis, Example.halfSpace, Example.harmonicFixEng,
      Example.wall, List.range_succ]
    ring
  · norm_num [post_force, atom_step, contact_step, contact_fwall, style_law_of_harmonic,
      harmonic, Example.atomsOnAxis, Example.halfSpace, Example.harmonicFixEng,
      Example.wall, List.range_succ]
  · norm_num [post_force, atom_step, contact_step, contact_fwall, style_law_of_harmonic,
      harmonic, Example.atomsOnAxis, Example.halfSpace, Example.harmonicFixEng,
      Example.wall, List.range_succ]

end FixWallRegion

/-! ## Force and energy of the wall laws over the reals -/

namespace FixWallRegion

/-- The slope of the LJ 9/3 energy, when `coeff1 = 9*coeff3` and
`coeff2 = 3*coeff4`. -/
theorem lj93_hasDerivAt (self : FixWallRegion ℝ) (r : ℝ) (hr : r ≠ 0)
    (h1 : self.coeff1 = 9 * self.coeff3) (h2 : self.coeff2 = 3 * self.coeff4) :
    HasDerivAt (fun t => (lj93 self t).eng) (-(lj93 self r).fwall) r := by
  have hf : (fun t => (lj93 self t).eng) =
      fun t => self.coeff3 * t⁻¹ ^ 9 - self.coeff4 * t⁻¹ ^ 3 - self.offset := by
    funext t
    simp only [lj93, one_div]
    ring
  rw [hf]
  have hinv := hasDerivAt_inv hr
  have h := (((hinv.pow 9).const_mul self.coeff3).sub
    ((hinv.pow 3).const_mul self.coeff4)).sub_const self.offset
  convert h using 1
  simp only [lj93, h1, h2, one_div]
  field_simp
  ring

/-- The slope of the LJ 12/6 energy, when `coeff1 = 12*coeff3` and
`coeff2 = 6*coeff4`. -/
theorem lj126_hasDerivAt (self : FixWallRegion ℝ) (r : ℝ) (hr : r ≠ 0)
    (h1 : self.coeff1 = 12 * self.coeff3) (h2 : self.coeff2 = 6 * self.coeff4) :
    HasDerivAt (fun t => (lj126 self t).eng) (-(lj126 self r).fwall) r := by
  have hf : (fun t => (lj126 self t).eng) =
      fun t => self.coeff3 * t⁻¹ ^ 12 - self.coeff4 * t⁻¹ ^ 6 - self.offset := by
    funext t
    simp only [lj126, one_div]
    ring
  rw [hf]
  have hinv := hasDerivAt_inv hr
  have h := (((hinv.pow 12).const_mul self.coeff3).sub
    ((hinv.pow 6).const_mul self.coeff4)).sub_const self.offset
  convert h using 1
  simp only [lj126, h1, h2, one_div]
  field_simp
  ring

/-- The slope of the harmonic energy. -/
theorem harmonic_hasDerivAt (self : FixWallRegion ℝ) (r : ℝ) :
    HasDerivAt (fun t => (harmonic self t).eng) (-(harmonic self r).fwall) r := by
  have hf : (fun t => (harmonic self t).eng) =
      fun t => self.epsilon * (self.cutoff - t) ^ 2 := by
    funext t
    simp only [harmonic]
    ring
  rw [hf]
  have h := (((hasDerivAt_id r).const_sub self.cutoff).pow 2).const_mul self.epsilon
  convert h using 1
  simp only [harmonic, id]
  ring

/-- The slope of the EDL energy, when `sigma ≠ 0`. -/
theorem edl_hasDerivAt (self : FixWallRegion ℝ) (r rad : ℝ) (hs : self.sigma ≠ 0) :
    HasDerivAt (fun t => (edl ⟨Real.exp, Real.log⟩ self t rad).eng)
      (-(edl ⟨Real.exp, Real.log⟩ self r rad).fwall) r := by
  have hf : (fun t => (edl ⟨Real.exp, Real.log⟩ self t rad).eng) =
      fun t => 2 * self.epsilon / self.sigma * Real.exp (-self.sigma * (t - rad)) := by
    funext t
    simp only [edl]
  rw [hf]
  have h := ((((hasDerivAt_id r).sub_const rad).const_mul (-self.sigma)).exp).const_mul
    (2 * self.epsilon / self.sigma)
  convert h using 1
  simp only [edl, id]
  field_simp
  ring

/-- C27: for the styles LJ93, LJ126 and HARMONIC with the coefficients that
`init` computes, and for the style EDL when `sigma ≠ 0`, the force magnitude
is minus the slope of the energy: over the reals, for every `r > 0`, the
function `t ↦ eng(t)` has the derivative `-fwall(r)` at `r`. -/
theorem force_is_minus_energy_slope (self : FixWallRegion ℝ) (r rad : ℝ) (hr : 0 < r)
    (hs : self.style = Style.LJ93 ∨ self.style = Style.LJ126 ∨
      self.style = Style.HARMONIC ∨ (self.style = Style.EDL ∧ self.sigma ≠ 0)) :
    HasDerivAt
      (fun t => (style_law ⟨Real.exp, Real.log⟩ (init_coeffs self) t rad).eng)
      (-(style_law ⟨Real.exp, Real.log⟩ (init_coeffs self) r rad).fwall) r := by
  rcases hs with h | h | h | ⟨h, hsig⟩
  · have e : ∀ t, style_law ⟨Real.exp, Real.log⟩ (init_coeffs self) t rad =
        lj93 (init_coeffs self) t := by
      intro t
      simp [style_law, h]
    simp only [e]
    apply lj93_hasDerivAt _ _ hr.ne'
    · simp only [init_coeffs, if_pos h]
      ring
    · simp only [init_coeffs, if_pos h]
      ring
  · have e : ∀ t, style_law ⟨Real.exp, Real.log⟩ (init_coeffs self) t rad =
        lj126 (init_coeffs self) t := by
      intro t
      simp [style_law, h]
    simp only [e]
    apply lj126_hasDerivAt _ _ hr.ne'
    · simp [init_coeffs, h]
      ring
    · simp [init_coeffs, h]
      ring
  · have e : ∀ t, style_law ⟨Real.exp, Real.log⟩ (init_coeffs self) t rad =
        harmonic (init_coeffs self) t := by
      intro t
      simp [style_law, h]
    simp only [e]
    exact harmonic_hasDerivAt _ _
  · have e : ∀ t, style_law ⟨Real.exp, Real.log⟩ (init_coeffs self) t rad =
        edl ⟨Real.exp, Real.log⟩ (init_coeffs self) t rad := by
      intro t
      simp [style_law, h]
    simp only [e]
    apply edl_hasDerivAt
    simpa using hsig

/-- Witness of C27: the LJ 9/3 example wall at distance `1`. -/
theorem force_is_minus_energy_slope_witness :
    HasDerivAt
      (fun t => (style_law ⟨Real.exp, Real.log⟩
        (init_coeffs (Example.wall ℝ Style.LJ93 2)) t 0).eng)
      (-(style_law ⟨Real.exp, Real.log⟩
        (init_coeffs (Example.wall ℝ Style.LJ93 2)) 1 0).fwall) 1 :=
  force_is_minus_energy_slope (Example.wall ℝ Style.LJ93 2) 1 0 (by norm_num)
    (Or.inl rfl)

end FixWallRegion

/-! ## Force and energy of the Beck kernel over the reals -/

namespace PairBeckOMP

variable {T : Type}

/-- The energy of lines 148-153 in closed form at the distance `r` whose
square is `R`. -/
theorem evdwl_beck_eq (env : PairEnv K T) (p : PairBeck K) (itype jtype : Nat) (R r : K)
    (hR : R = r * r) (hsqrt : env.sqrt R = r) :
    evdwl_beck env p itype jtype R =
      p.AA itype jtype
          * env.exp (-r * (p.alpha itype jtype + p.beta itype jtype * r ^ 5))
        - p.BB itype jtype * ((p.aa itype jtype ^ 2 + r ^ 2) ^ 3)⁻¹
          * (1 + (2709 / 1000 + 3 * p.aa itype jtype ^ 2)
              * (p.aa itype jtype ^ 2 + r ^ 2)⁻¹) := by
  simp only [evdwl_beck, hsqrt]
  subst hR
  have e1 : -1 * r * (p.alpha itype jtype + r * r * (r * r) * r * p.beta itype jtype) =
      -r * (p.alpha itype jtype + p.beta itype jtype * r ^ 5) := by ring
  have e2 : p.aa itype jtype * p.aa itype jtype + r * r = p.aa itype jtype ^ 2 + r ^ 2 := by
    ring
  rw [e1, e2]
  ring

/-- The slope of the closed form of the Beck energy. -/
theorem beck_closed_hasDerivAt (AA BB a alpha beta r : ℝ) (hr : 0 < r) :
    HasDerivAt
      (fun t => AA * Real.exp (-t * (alpha + beta * t ^ 5))
        - BB * ((a ^ 2 + t ^ 2) ^ 3)⁻¹ * (1 + (2709 / 1000 + 3 * a ^ 2) * (a ^ 2 + t ^ 2)⁻¹))
      (-(AA * Real.exp (-r * (alpha + beta * r ^ 5)) * (alpha + 6 * beta * r ^ 5)
        - BB * r * ((a ^ 2 + r ^ 2) ^ 5)⁻¹ * (21672 / 1000 + 30 * a ^ 2 + 6 * r ^ 2))) r := by
  have hu0 : a ^ 2 + r ^ 2 ≠ 0 := by positivity
  have hu3 : (a ^ 2 + r ^ 2) ^ 3 ≠ 0 := pow_ne_zero 3 hu0
  have hid := hasDerivAt_id r
  have hu : HasDerivAt (fun t : ℝ => a ^ 2 + t ^ 2) (2 * r) r := by
    have h := (hid.pow 2).const_add (a ^ 2)
    convert h using 1
    simp
  have hg : HasDerivAt (fun t : ℝ => -t * (alpha + beta * t ^ 5))
      (-(alpha + 6 * beta * r ^ 5)) r := by
    have h := hid.neg.mul (((hid.pow 5).const_mul beta).const_add alpha)
    convert h using 1
    simp only [id]
    ring
  have h := (hg.exp.const_mul AA).sub
    ((((hu.pow 3).inv hu3).const_mul BB).mul
      (((hu.inv hu0).const_mul (2709 / 1000 + 3 * a ^ 2)).const_add 1))
  convert h using 1
  field_simp
  ring

/-- C29: over the reals, with `exp` and `sqrt` of the real numbers, the energy
and the force that `eval` computes for a pair at distance `r > 0` (squared
distance `r*r`) are
`evdwl = AA*exp(-r*(alpha + beta*r^5)) - BB*(a^2+r^2)^(-3)*(1 + (2.709+3a^2)/(a^2+r^2))`
and
`force_beck = AA*exp(-r*(alpha + beta*r^5))*(alpha + 6*beta*r^5) - BB*r*(a^2+r^2)^(-5)*(21.672 + 30a^2 + 6r^2)`,
and the force is minus the slope of the energy: `t ↦ evdwl(t)` has the
derivative `-force_beck(r)` at `r`. -/
theorem beck_force_is_minus_energy_slope (env : PairEnv ℝ T) (p : PairBeck ℝ)
    (itype jtype : Nat) (r : ℝ) (hr : 0 < r)
    (hexp : env.exp = Real.exp) (hsqrt : env.sqrt = Real.sqrt) :
    evdwl_beck env p itype jtype (r * r) =
      p.AA itype jtype
          * Real.exp (-r * (p.alpha itype jtype + p.beta itype jtype * r ^ 5))
        - p.BB itype jtype * ((p.aa itype jtype ^ 2 + r ^ 2) ^ 3)⁻¹
          * (1 + (2709 / 1000 + 3 * p.aa itype jtype ^ 2)
              / (p.aa itype jtype ^ 2 + r ^ 2)) ∧
    force_beck env p itype jtype (r * r) =
      p.AA itype jtype
          * Real.exp (-r * (p.alpha itype jtype + p.beta itype jtype * r ^ 5))
          * (p.alpha itype jtype + 6 * p.beta itype jtype * r ^ 5)
        - p.BB itype jtype * r * ((p.aa itype jtype ^ 2 + r ^ 2) ^ 5)⁻¹
          * (21672 / 1000 + 30 * p.aa itype jtype ^ 2 + 6 * r ^ 2) ∧
    HasDerivAt (fun t => evdwl_beck env p itype jtype (t * t))
      (-force_beck env p itype jtype (r * r)) r := by
  have hs : ∀ t : ℝ, 0 < t → env.sqrt (t * t) = t := by
    intro t ht
    rw [hsqrt, Real.sqrt_mul_self ht.le]
  have hE : ∀ t : ℝ, 0 < t → evdwl_beck env p itype jtype (t * t) =
      p.AA itype jtype
          * Real.exp (-t * (p.alpha itype jtype + p.beta itype jtype * t ^ 5))
        - p.BB itype jtype * ((p.aa itype jtype ^ 2 + t ^ 2) ^ 3)⁻¹
          * (1 + (2709 / 1000 + 3 * p.aa itype jtype ^ 2)
              * (p.aa itype jtype ^ 2 + t ^ 2)⁻¹) := by
    intro t ht
    rw [evdwl_beck_eq env p itype jtype (t * t) t rfl (hs t ht), hexp]
  have hF := force_beck_eq env p itype jtype (r * r) r rfl (hs r hr)
  rw [hexp] at hF
  refine ⟨?_, hF, ?_⟩
  · rw [hE r hr]
    simp only [div_eq_mul_inv]
  · rw [hF]
    refine (beck_closed_hasDerivAt (p.AA itype jtype) (p.BB itype jtype)
      (p.aa itype jtype) (p.alpha itype jtype) (p.beta itype jtype) r hr).congr_of_eventuallyEq
      ?_
    exact (eventually_gt_nhds hr).mono (fun t ht => hE t ht)

/-- Witness of C29: all pair coefficients equal to `1`, distance `1`. -/
theorem beck_force_is_minus_energy_slope_witness :
    HasDerivAt
      (fun t => evdwl_beck
        (⟨fun _ _ => 0, fun _ => 0, 0, fun _ => 1, ⟨fun _ => 0, fun _ => 0, fun _ _ => 0⟩,
          Real.exp, Real.sqrt, fun _ => 0, 0,
          fun u _ _ _ _ _ _ _ _ _ _ => u⟩ : PairEnv ℝ Unit)
        ⟨fun _ _ => 1, fun _ _ => 1, fun _ _ => 1, fun _ _ => 1, fun _ _ => 1, fun _ _ => 1⟩
        0 0 (t * t))
      (-force_beck
        (⟨fun _ _ => 0, fun _ => 0, 0, fun _ => 1, ⟨fun _ => 0, fun _ => 0, fun _ _ => 0⟩,
          Real.exp, Real.sqrt, fun _ => 0, 0,
          fun u _ _ _ _ _ _ _ _ _ _ => u⟩ : PairEnv ℝ Unit)
        ⟨fun _ _ => 1, fun _ _ => 1, fun _ _ => 1, fun _ _ => 1, fun _ _ => 1, fun _ _ => 1⟩
        0 0 (1 * 1)) 1 :=
  (beck_force_is_minus_energy_slope _ _ 0 0 1 (by norm_num) rfl rfl).2.2

end PairBeckOMP

/-! ## Force and energy of the colloid wall law over the reals -/

namespace FixWallRegion

/-- The energy that `colloid(r, rad)` computes, with the locals written out. -/
theorem colloid_eng_eq (self : FixWallRegion ℝ) (t rad : ℝ) :
    (colloid ⟨Real.exp, Real.log⟩ self t rad).eng =
      self.coeff3 * ((-(7 * rad) + t) * (rad - t)⁻¹ ^ 7 + (7 * rad + t) * (t + rad)⁻¹ ^ 7)
        - self.coeff4 * ((-(2 * rad) * t
            + (rad - t) * (t + rad) * (Real.log (-(rad - t)) - Real.log (t + rad)))
          * (-(rad - t)⁻¹) * (t + rad)⁻¹) - self.offset := by
  have hd : (1 : ℝ) / 2 * (2 * rad) = rad := by ring
  simp only [colloid, hd, one_div]
  ring_nf

/-- The slope of the repulsive part of the colloid energy. -/
theorem colloid_rep_hasDerivAt (r rad : ℝ) (hr : rad < r) (hrad : 0 < rad) :
    HasDerivAt
      (fun t : ℝ => (-(7 * rad) + t) * (rad - t)⁻¹ ^ 7 + (7 * rad + t) * (t + rad)⁻¹ ^ 7)
      (-96 * (rad ^ 9 + 27 * rad ^ 7 * r ^ 2 + 63 * rad ^ 5 * r ^ 4 + 21 * rad ^ 3 * r ^ 6)
        * ((rad ^ 2 - r ^ 2) ^ 8)⁻¹) r := by
  have hu0 : rad - r ≠ 0 := by linarith
  have hv0 : r + rad ≠ 0 := by linarith
  have hΔ : rad ^ 2 - r ^ 2 ≠ 0 := by
    have : rad ^ 2 - r ^ 2 = (rad - r) * (r + rad) := by ring
    rw [this]
    exact mul_ne_zero hu0 hv0
  have hid : HasDerivAt (fun t : ℝ => t) 1 r := hasDerivAt_id r
  have hu : HasDerivAt (fun t : ℝ => rad - t) (-1) r := hid.const_sub rad
  have hv : HasDerivAt (fun t : ℝ => t + rad) 1 r := hid.add_const rad
  have A1 := (hid.const_add (-(7 * rad))).mul ((hu.inv hu0).pow 7)
  have A2 := (hid.const_add (7 * rad)).mul ((hv.inv hv0).pow 7)
  have h := A1.add A2
  have e : -96 * (rad ^ 9 + 27 * rad ^ 7 * r ^ 2 + 63 * rad ^ 5 * r ^ 4 + 21 * rad ^ 3 * r ^ 6)
        * ((rad ^ 2 - r ^ 2) ^ 8)⁻¹ =
      6 * (r - 8 * rad) * ((rad - r) ^ 8)⁻¹ - 6 * (r + 8 * rad) * ((r + rad) ^ 8)⁻¹ := by
    have : rad ^ 2 - r ^ 2 = (rad - r) * (r + rad) := by ring
    rw [this, mul_pow]
    field_simp
    ring
  rw [e]
  convert h using 1
  field_simp
  ring

/-- The slope of the attractive part of the colloid energy. -/
theorem colloid_att_hasDerivAt (r rad : ℝ) (hr : rad < r) (hrad : 0 < rad) :
    HasDerivAt
      (fun t : ℝ => (-(2 * rad) * t
            + (rad - t) * (t + rad) * (Real.log (-(rad - t)) - Real.log (t + rad)))
          * (-(rad - t)⁻¹) * (t + rad)⁻¹)
      (4 * rad ^ 3 * ((rad ^ 2 - r ^ 2) ^ 2)⁻¹) r := by
  have hu0 : rad - r ≠ 0 := by linarith
  have hv0 : r + rad ≠ 0 := by linarith
  have hnu0 : -(rad - r) ≠ 0 := by linarith
  have hid : HasDerivAt (fun t : ℝ => t) 1 r := hasDerivAt_id r
  have hu : HasDerivAt (fun t : ℝ => rad - t) (-1) r := hid.const_sub rad
  have hv : HasDerivAt (fun t : ℝ => t + rad) 1 r := hid.add_const rad
  have hw0 : r - rad ≠ 0 := by linarith
  have hlu : HasDerivAt (fun t : ℝ => Real.log (-(rad - t))) (r - rad)⁻¹ r := by
    have h0 := hu.neg.log hnu0
    rw [neg_neg, neg_sub, one_div] at h0
    exact h0
  have hlv := hv.log hv0
  have h := (((hid.const_mul (-(2 * rad))).add ((hu.mul hv).mul (hlu.sub hlv))).mul
    (hu.inv hu0).neg).mul (hv.inv hv0)
  have e : rad ^ 2 - r ^ 2 = (rad - r) * (r + rad) := by ring
  rw [e, mul_pow]
  convert h using 1
  field_simp
  ring

/-- The slope of the energy that `colloid(r, rad)` computes, for `r > rad > 0`:
with `S = rad^9 + 27 rad^7 r^2 + 63 rad^5 r^4 + 21 rad^3 r^6` and
`Δ = rad^2 - r^2` it is `-96*coeff3*S/Δ^8 - 4*coeff4*rad^3/Δ^2`. -/
theorem colloid_eng_hasDerivAt (self : FixWallRegion ℝ) (r rad : ℝ) (hrad : 0 < rad)
    (hr : rad < r) :
    HasDerivAt (fun t => (colloid ⟨Real.exp, Real.log⟩ self t rad).eng)
      (-96 * self.coeff3 *
          (rad ^ 9 + 27 * rad ^ 7 * r ^ 2 + 63 * rad ^ 5 * r ^ 4 + 21 * rad ^ 3 * r ^ 6)
          * ((rad ^ 2 - r ^ 2) ^ 8)⁻¹
        - 4 * self.coeff4 * rad ^ 3 * ((rad ^ 2 - r ^ 2) ^ 2)⁻¹) r := by
  have hf : (fun t => (colloid ⟨Real.exp, Real.log⟩ self t rad).eng) =
      fun t => self.coeff3 *
          ((-(7 * rad) + t) * (rad - t)⁻¹ ^ 7 + (7 * rad + t) * (t + rad)⁻¹ ^ 7)
        - self.coeff4 * ((-(2 * rad) * t
            + (rad - t) * (t + rad) * (Real.log (-(rad - t)) - Real.log (t + rad)))
          * (-(rad - t)⁻¹) * (t + rad)⁻¹) - self.offset :=
    funext fun t => colloid_eng_eq self t rad
  rw [hf]
  have h := (((colloid_rep_hasDerivAt r rad hr hrad).const_mul self.coeff3).sub
    ((colloid_att_hasDerivAt r rad hr hrad).const_mul self.coeff4)).sub_const self.offset
  convert h using 1
  ring

/-- C28, evaluation at the failing input: for the colloid wall with
`epsilon = 1`, `sigma = 1` and the coefficients of `init`, a particle of
radius `1` at distance `2`, the energy of `colloid(r, rad)` has the slope
`-(2/27 + 9844/2066715)` at `r = 2`, whereas `colloid(2, 1)` sets
`fwall = 2/27 - 9844/2066715`, which is not minus that slope. -/
theorem colloid_force_not_minus_energy_slope :
    HasDerivAt
      (fun t => (colloid ⟨Real.exp, Real.log⟩
        (init_coeffs (Example.wall ℝ Style.COLLOID 3)) t 1).eng)
      (-(2 / 27 + 9844 / 2066715)) 2 ∧
    (colloid ⟨Real.exp, Real.log⟩
      (init_coeffs (Example.wall ℝ Style.COLLOID 3)) 2 1).fwall = 2 / 27 - 9844 / 2066715 ∧
    (2 / 27 - 9844 / 2066715 : ℝ) ≠ -(-(2 / 27 + 9844 / 2066715)) := by
  refine ⟨?_, ?_, by norm_num⟩
  · have h := colloid_eng_hasDerivAt (init_coeffs (Example.wall ℝ Style.COLLOID 3)) 2 1
      (by norm_num) (by norm_num)
    convert h using 1
    simp only [init_coeffs, Example.wall, reduceCtorEq, if_false, if_true]
    norm_num
  · simp only [colloid, init_coeffs, Example.wall, reduceCtorEq, if_false, if_true]
    norm_num

end FixWallRegion

end LAMMPS_NS
